import Mathlib

/-!
Shallow embedding of the delivery-route-api core (Go) in Lean 4.

Conventions of the embedding:
* Go `int` is modelled as `Int` (Go ints are 64-bit; where the code uses the
  `math.MaxInt64` sentinel we model the literal constant, and theorems that
  need representability carry explicit `≤ maxInt64` bounds).
* Go `string` is Lean `String`; Go's byte-wise `<` on UTF-8 strings equals
  code-point lexicographic order, modelled by `goStrLt` on the character list.
* Go `time.Time` is modelled as an `Int` count of seconds; `t.Add(d*time.Second)`
  is integer addition.
* Go maps are modelled as `String → Option α` functions (a read of a missing
  key yielding Go's zero value is modelled with `.getD`); map iteration order,
  which Go randomizes, is modelled by explicit order parameters.
* Fallible Go functions returning `(T, error)` are modelled as `Except ε T`
  with structured error values.
-/

deriving instance DecidableEq for Except

/-- `ports.DistanceResult`: distance and travel duration between two locations. -/
structure DistanceResult where
  distanceMeters : Int
  durationSeconds : Int
deriving DecidableEq, Repr

/-- `domain.Package` (the `LoadedAt`/`DeliveredAt` timestamps play no role in the
claims about planning and are omitted; they are never read by the planner). -/
structure Package where
  packageID : Int
  destination : String
deriving DecidableEq, Repr

/-- `domain.Truck`: id, capacity, start location and the ordered loaded packages. -/
structure Truck where
  truckID : Int
  capacity : Int
  startLocation : String
  packages : List Package
deriving DecidableEq, Repr

/-- `domain.RouteStop`. -/
structure RouteStop where
  destination : String
  arriveAt : Int
  packageIDs : List Int
deriving DecidableEq, Repr

/-- `domain.RoutePlan`. -/
structure RoutePlan where
  truckID : Int
  departAt : Int
  stops : List RouteStop
  totalDurationSeconds : Int
  totalDistanceMeters : Int
deriving DecidableEq, Repr

/-- `domain.Coordinates`. -/
structure Coordinates where
  lon : Int
  lat : Int
deriving DecidableEq, Repr

/-- Go byte-wise string comparison, character-list level.  For UTF-8 encoded
strings, byte-wise lexicographic order coincides with code-point order. -/
def charsLt : List Char → List Char → Bool
  | _, [] => false
  | [], _ :: _ => true
  | a :: as, b :: bs =>
      if a.toNat < b.toNat then true
      else if b.toNat < a.toNat then false
      else charsLt as bs

/-- Go `a < b` on strings. -/
def goStrLt (a b : String) : Bool := charsLt a.data b.data

/-- `math.MaxInt64`. -/
def maxInt64 : Int := 9223372036854775807

/-- The `"origin|destination"` composite key used for the pairwise distance maps. -/
def distKey (o d : String) : String := o ++ "|" ++ d

/-- Reading `distances[o+"|"+d].DurationSeconds` (Go zero value on a missing key). -/
def durOf (dist : String → Option DistanceResult) (o d : String) : Int :=
  ((dist (distKey o d)).getD ⟨0, 0⟩).durationSeconds

/-- Reading `distances[o+"|"+d].DistanceMeters` (Go zero value on a missing key). -/
def metersOf (dist : String → Option DistanceResult) (o d : String) : Int :=
  ((dist (distKey o d)).getD ⟨0, 0⟩).distanceMeters

/-- First-occurrence deduplication: the key list of a Go map built by inserting
in list order (one canonical listing of the key set). -/
def dedupFirstAux (seen : List String) : List String → List String
  | [] => []
  | x :: xs => if x ∈ seen then dedupFirstAux seen xs else x :: dedupFirstAux (x :: seen) xs

/-- The key set of `byDestination` built from the package list. -/
def destKeys (packages : List Package) : List String :=
  dedupFirstAux [] (packages.map (·.destination))

/-- `byDestination[d]`: the ids of all packages destined for `d`, in package-list
order (the order Go's map-building loop appends them). -/
def byDestination (packages : List Package) (d : String) : List Int :=
  (packages.filter (fun p => p.destination = d)).map (·.packageID)

/-- The greedy selection loop shared by `PlanRoute` and `NearestNeighborRoute`:
`bestDestination`/`minDuration` fold with the `math.MaxInt64` sentinel, the
empty-string sentinel for `bestDestination`, and the lexicographic tie-break. -/
def selStep (dur : String → Int) (acc : String × Int) (d : String) : String × Int :=
  if dur d < acc.2 ∨ (dur d = acc.2 ∧ (acc.1 = "" ∨ goStrLt d acc.1 = true)) then
    (d, dur d)
  else acc

/-- The whole selection loop: fold `selStep` over the iteration order starting
from the sentinel accumulator. -/
def selectBest (dur : String → Int) (destinations : List String) : String × Int :=
  destinations.foldl (selStep dur) ("", maxInt64)

/-- Structured form of the errors `NearestNeighborRoute` / `PlanRoute` return. -/
inductive RouteError
  /-- "plan route: startLocation must be non-empty" -/
  | emptyStart
  /-- "plan route: missing distance result from %q to %q" -/
  | missingDistance (src dst : String)
  /-- "plan route: failed to select next destination" -/
  | selectFailed
  /-- "plan route: missing distance result for return leg from %q to %q" -/
  | missingReturnLeg (src dst : String)
  /-- "plan route: get distance: from %q to %q: %w" (provider error in `PlanRoute`) -/
  | getDistanceFailed (src dst : String)
  /-- loop fuel exhausted; unreachable when the fuel is the number of remaining
  destinations, since every iteration removes one -/
  | outOfFuel
deriving DecidableEq, Repr

/-- Result of the main planning loop: accumulated stops, the final current
location, and the running totals. -/
structure LoopOut where
  stops : List RouteStop
  current : String
  totalDistanceMeters : Int
  totalDurationSeconds : Int
deriving DecidableEq, Repr

/-- The `for len(remainingDestinations) > 0` loop of `NearestNeighborRoute`
(src/internal/api/dto/package.go).  `perm k` gives the iteration order Go's
map range produces at the k-th iteration; the canonical instantiation is the
identity.  `fuel` bounds the recursion and is set to the number of remaining
destinations (each iteration deletes the chosen one). -/
def routeLoop (dist : String → Option DistanceResult) (byDest : String → List Int)
    (perm : Nat → List String → List String) :
    Nat → Nat → List String → String → Int → Int → Int → List RouteStop →
    Except RouteError LoopOut
  | 0, _, remaining, cur, _, totDur, totDist, stops =>
      if remaining.isEmpty then .ok ⟨stops, cur, totDist, totDur⟩ else .error .outOfFuel
  | fuel + 1, k, remaining, cur, time, totDur, totDist, stops =>
      if remaining.isEmpty then .ok ⟨stops, cur, totDist, totDur⟩
      else
        let destinations := perm k remaining
        match destinations.find? (fun d => (dist (distKey cur d)).isNone) with
        | some d => .error (.missingDistance cur d)
        | none =>
            let best := (selectBest (fun d => durOf dist cur d) destinations).1
            if best = "" then .error .selectFailed
            else
              let legDur := durOf dist cur best
              let legMeters := metersOf dist cur best
              let arrive := time + legDur
              routeLoop dist byDest perm fuel (k + 1) (destinations.erase best) best
                arrive (totDur + legDur) (totDist + legMeters)
                (stops ++ [⟨best, arrive, byDest best⟩])

/-- `NearestNeighborRoute` (src/internal/api/dto/package.go, `services` copy),
parameterized by the initial listing of `remainingDestinations` and the
per-iteration map-iteration order. -/
def NearestNeighborRouteOrd (truck : Truck) (departAt : Int)
    (distances : String → Option DistanceResult) (returnToStart : Bool)
    (initRemaining : List String) (perm : Nat → List String → List String) :
    Except RouteError RoutePlan :=
  let startLocation := truck.startLocation
  let packages := truck.packages
  if startLocation = "" then .error .emptyStart
  else if packages.isEmpty then
    .ok ⟨truck.truckID, departAt, [], 0, 0⟩
  else
    match routeLoop distances (byDestination packages) perm initRemaining.length 0
        initRemaining startLocation departAt 0 0 [] with
    | .error e => .error e
    | .ok out =>
        if returnToStart then
          match distances (distKey out.current startLocation) with
          | none => .error (.missingReturnLeg out.current startLocation)
          | some back =>
              .ok ⟨truck.truckID, departAt, out.stops,
                out.totalDurationSeconds + back.durationSeconds,
                out.totalDistanceMeters + back.distanceMeters⟩
        else
          .ok ⟨truck.truckID, departAt, out.stops,
            out.totalDurationSeconds, out.totalDistanceMeters⟩

/-- `NearestNeighborRoute` at the canonical (first-occurrence / identity)
iteration orders.  By `nearestNeighborRoute_order_insensitive` the choice of
orders does not affect the observable result. -/
def NearestNeighborRoute (truck : Truck) (departAt : Int)
    (distances : String → Option DistanceResult) (returnToStart : Bool) :
    Except RouteError RoutePlan :=
  NearestNeighborRouteOrd truck departAt distances returnToStart
    (destKeys truck.packages) (fun _ l => l)

/-- The per-destination distance gathering of `PlanRoute`'s loop body when the
provider is `MockDistanceProvider` (which implements only `GetDistance`, so the
batched branch is not taken): query `m[cur+"|"+d]` for each destination in
order, aborting on the first missing pair exactly as the mock provider errors. -/
def planRouteResults (m : String → Option DistanceResult) (cur : String) :
    List String → Except RouteError (List (String × DistanceResult))
  | [] => .ok []
  | d :: ds =>
      match m (distKey cur d) with
      | none => .error (.getDistanceFailed cur d)
      | some r =>
          match planRouteResults m cur ds with
          | .error e => .error e
          | .ok rest => .ok ((d, r) :: rest)

/-- The `for len(remainingDestinations) > 0` loop of `PlanRoute`
(src/internal/api/dto/package.go) with a `MockDistanceProvider` built from the
map `m`.  Identical to `routeLoop` except that the step's distances come from
the per-destination provider queries collected in `results`. -/
def planRouteLoop (m : String → Option DistanceResult) (byDest : String → List Int)
    (perm : Nat → List String → List String) :
    Nat → Nat → List String → String → Int → Int → Int → List RouteStop →
    Except RouteError LoopOut
  | 0, _, remaining, cur, _, totDur, totDist, stops =>
      if remaining.isEmpty then .ok ⟨stops, cur, totDist, totDur⟩ else .error .outOfFuel
  | fuel + 1, k, remaining, cur, time, totDur, totDist, stops =>
      if remaining.isEmpty then .ok ⟨stops, cur, totDist, totDur⟩
      else
        let destinations := perm k remaining
        match planRouteResults m cur destinations with
        | .error e => .error e
        | .ok results =>
            match destinations.find? (fun d => (results.lookup d).isNone) with
            | some d => .error (.missingDistance cur d)
            | none =>
                let best :=
                  (selectBest (fun d => ((results.lookup d).getD ⟨0, 0⟩).durationSeconds)
                    destinations).1
                if best = "" then .error .selectFailed
                else
                  let bestResult := (results.lookup best).getD ⟨0, 0⟩
                  let arrive := time + bestResult.durationSeconds
                  planRouteLoop m byDest perm fuel (k + 1) (destinations.erase best) best
                    arrive (totDur + bestResult.durationSeconds)
                    (totDist + bestResult.distanceMeters)
                    (stops ++ [⟨best, arrive, byDest best⟩])

/-- `PlanRoute` (src/internal/api/dto/package.go, `services` copy) instantiated
with `MockDistanceProvider` built from the pair map `m`
(src/internal/adapters/distance/mock_distance_provider.go): every provider
query answers `m[origin+"|"+destination]`, failing when the pair is absent.
Canonical (identity) map-iteration orders. -/
def PlanRoute (truckId : Int) (departAt : Int) (startLocation : String)
    (packages : List Package) (m : String → Option DistanceResult)
    (returnToStart : Bool) : Except RouteError RoutePlan :=
  if startLocation = "" then .error .emptyStart
  else if packages.isEmpty then
    .ok ⟨truckId, departAt, [], 0, 0⟩
  else
    match planRouteLoop m (byDestination packages) (fun _ l => l)
        (destKeys packages).length 0 (destKeys packages) startLocation departAt 0 0 [] with
    | .error e => .error e
    | .ok out =>
        if returnToStart then
          match m (distKey out.current startLocation) with
          | none => .error (.getDistanceFailed out.current startLocation)
          | some back =>
              .ok ⟨truckId, departAt, out.stops,
                out.totalDurationSeconds + back.durationSeconds,
                out.totalDistanceMeters + back.distanceMeters⟩
        else
          .ok ⟨truckId, departAt, out.stops,
            out.totalDurationSeconds, out.totalDistanceMeters⟩

/-- The capacity failure `Truck.Load` reports ("load truck: Truck %d is at full
capacity (capacity=%d)"). -/
structure LoadFailure where
  truckId : Int
  capacity : Int
deriving DecidableEq, Repr

/-- `Truck.Load` (src/internal/domain/truck.go).  Go mutates the receiver and
returns an error; we return the error (if any) together with the truck state
after the call, so that "leaves the loaded-package list unchanged" is a
statement about the second component. -/
def Truck.load (t : Truck) (p : Package) : Option LoadFailure × Truck :=
  if (t.packages.length : Int) ≥ t.capacity then (some ⟨t.truckID, t.capacity⟩, t)
  else (none, { t with packages := t.packages ++ [p] })

/-- Truck state after an arbitrary sequence of `Load` calls (failed calls leave
the truck unchanged and the sequence continues). -/
def Truck.loadCalls (t : Truck) (ps : List Package) : Truck :=
  ps.foldl (fun t p => (t.load p).2) t

/-- Errors of `AssignPackagesByDistance` (src/unnamed/part_001).  The capacity
error records the id (and capacity) of the failing truck, as the Go error
message does. -/
inductive AssignError
  /-- "assign packages: truck list must not be empty" -/
  | noTrucks
  /-- "assign packages: truck %d: load truck: Truck %d is at full capacity" -/
  | capacityExceeded (truckId : Int) (capacity : Int)
deriving DecidableEq, Repr

/-- The inner double loop of `AssignPackagesByDistance`: load every package of
every destination of the band onto the truck, failing fast on capacity. -/
def loadBand (t : Truck) : List Package → Option LoadFailure × Truck
  | [] => (none, t)
  | p :: ps =>
      match t.load p with
      | (some f, t') => (some f, t')
      | (none, t') => loadBand t' ps

/-- The comparator of `AssignPackagesByDistance`'s `slices.SortFunc`
(hub distance in meters ascending, then destination string ascending), as the
non-strict total order "compares ≤ 0".  A missing distance entry reads as Go's
zero value. -/
def destLe (distances : String → Option DistanceResult) (a b : String) : Prop :=
  ((distances a).getD ⟨0, 0⟩).distanceMeters < ((distances b).getD ⟨0, 0⟩).distanceMeters ∨
    (((distances a).getD ⟨0, 0⟩).distanceMeters = ((distances b).getD ⟨0, 0⟩).distanceMeters ∧
      (goStrLt a b = true ∨ a = b))

instance (distances : String → Option DistanceResult) : DecidableRel (destLe distances) :=
  fun a b => by unfold destLe; infer_instance

/-- `slices.SortFunc(destinations, cmp)`: the comparator is a total order whose
equivalence classes are single string values, so every correct sort (Go's
unstable pdqsort included) produces the same list; we use insertion sort. -/
def sortDest (distances : String → Option DistanceResult) (destinations : List String) :
    List String :=
  destinations.insertionSort (destLe distances)

/-- The per-truck chunking loop of `AssignPackagesByDistance`: truck `ti`
(0-indexed) takes sorted positions `[ti*chunkSize, min((ti+1)*chunkSize, n))`;
the loop `break`s (leaving later trucks untouched) once `start >= nDests`. -/
def assignGo (pkgDest : String → List Package) (sorted : List String) (chunkSize : Nat) :
    Nat → List Truck → Except AssignError (List Truck)
  | _, [] => .ok []
  | ti, t :: ts =>
      if ti * chunkSize ≥ sorted.length then .ok (t :: ts)
      else
        let band := (sorted.drop (ti * chunkSize)).take chunkSize
        match loadBand t (band.flatMap pkgDest) with
        | (some f, _) => .error (.capacityExceeded f.truckId f.capacity)
        | (none, t') =>
            match assignGo pkgDest sorted chunkSize (ti + 1) ts with
            | .error e => .error e
            | .ok ts' => .ok (t' :: ts')

/-- `AssignPackagesByDistance` (src/unnamed/part_001).  Sorts the destinations
by (hub distance asc, string asc) and chunks them across the trucks with
`chunkSize = ceil(nDests / nTrucks)`. -/
def AssignPackagesByDistance (trucks : List Truck) (pkgDest : String → List Package)
    (distances : String → Option DistanceResult) (destinations : List String) :
    Except AssignError (List Truck) :=
  if trucks.isEmpty then .error .noTrucks
  else
    let sorted := sortDest distances destinations
    let chunkSize := (destinations.length + trucks.length - 1) / trucks.length
    assignGo pkgDest sorted chunkSize 0 trucks

/-- Go `strings.TrimSpace`: strip leading and trailing whitespace. -/
def goTrimSpace (s : String) : String :=
  ⟨((s.data.dropWhile Char.isWhitespace).reverse.dropWhile Char.isWhitespace).reverse⟩

/-- Modelled from the spec: `domain.NewTruck` is not among the provided source
files (only its call in the orchestrator is); per §3 a truck is created fresh
per planning request with the given id, capacity and start location and no
loaded packages. -/
def NewTruck (id : Int) (capacity : Int) (startLocation : String) : Truck :=
  ⟨id, capacity, startLocation, []⟩

/-- `PlanDeliveriesRequest` (src/unnamed/part_002). -/
structure PlanDeliveriesRequest where
  hub : String
  truckCount : Int
  truckCapacity : Int
  departAt : Int
  returnToStart : Bool

/-- Errors of `PlanDeliveries`.  Provider and repository errors are carried as
opaque strings. -/
inductive PlanError
  /-- "plan deliveries: list package: %w" -/
  | listPackages (e : String)
  /-- "plan deliveries: package_id=%d has empty destination" -/
  | emptyPackageDestination (pid : Int)
  /-- "plan deliveries: get matrix distances from hub: %w" -/
  | hubDistances (e : String)
  /-- "plan deliveries: missing hub distance for %q" -/
  | missingHubDistance (d : String)
  /-- "plan deliveries: assign packages: %w" -/
  | assign (e : AssignError)
  /-- "plan deliveries: get pairwise distances from %q: %w" -/
  | pairwiseGet (origin : String) (e : String)
  /-- "plan deliveries: missing pairwise distance from %q to %q" -/
  | missingPairwise (origin dest : String)
  /-- "plan deliveries: plan nearest neighbor route: %w" -/
  | route (e : RouteError)
deriving DecidableEq, Repr

/-- Go map write `m[k] = v` on a function-represented map. -/
def insertKV (m : String → Option DistanceResult) (k : String) (v : DistanceResult) :
    String → Option DistanceResult :=
  fun x => if x = k then some v else m x

/-- The destinations of a package list: trimmed destinations, first-occurrence
order (the keys of the `pkgDest` map). -/
def groupedDestinations (pkgs : List Package) : List String :=
  dedupFirstAux [] (pkgs.map (fun p => goTrimSpace p.destination))

/-- The `pkgDest` map of `PlanDeliveries`: all packages whose trimmed
destination is `d`, in package-list order. -/
def pkgDestOf (pkgs : List Package) : String → List Package :=
  fun d => pkgs.filter (fun p => goTrimSpace p.destination = d)

/-- The worker's target list: `hubAndDests` minus the origin itself. -/
def hubTargets (hubAndDests : List String) (origin : String) : List String :=
  hubAndDests.filter (fun t => t ≠ origin)

/-- The `distances` map of `PlanDeliveries` after the hub resolution: the
results restricted to the destination keys. -/
def hubDistancesMap (pkgs : List Package) (results : String → Option DistanceResult) :
    String → Option DistanceResult :=
  fun d => if (groupedDestinations pkgs).contains d then results d else none

/-- The fresh trucks `PlanDeliveries` constructs (ids 1..truckCount). -/
def planTrucks (req : PlanDeliveriesRequest) : List Truck :=
  (List.range req.truckCount.toNat).map
    (fun i => NewTruck ((i : Int) + 1) req.truckCapacity req.hub)

/-- The `hubAndDests` list of the pairwise fan-out: the hub followed by the
destinations, which Go's in-place `slices.SortFunc` left in sorted order. -/
def planHubAndDests (req : PlanDeliveriesRequest) (pkgs : List Package)
    (results : String → Option DistanceResult) : List String :=
  req.hub :: sortDest (hubDistancesMap pkgs results) (groupedDestinations pkgs)

/-- The first worker error, in channel-arrival order. -/
def firstWorkerError
    (getDist : String → List String → Except String (String → Option DistanceResult))
    (hubAndDests : List String) (arrival : List String) : Option (String × String) :=
  arrival.findSome? (fun o =>
    match getDist o (hubTargets hubAndDests o) with
    | .error e => some (o, e)
    | .ok _ => none)

/-- Merging one worker's results into `pairwiseDist`: for every target of the
origin the result must be present, else the drain loop returns the
missing-pairwise error immediately. -/
def mergeOrigin (origin : String) (res : String → Option DistanceResult) :
    List String → (String → Option DistanceResult) →
    Except PlanError (String → Option DistanceResult)
  | [], m => .ok m
  | t :: ts, m =>
      if t = origin then mergeOrigin origin res ts m
      else
        match res t with
        | none => .error (.missingPairwise origin t)
        | some r => mergeOrigin origin res ts (insertKV m (distKey origin t) r)

/-- The result-channel drain loop of `PlanDeliveries`: results are consumed in
channel-arrival order (`arrival`), the first worker error is retained (later
errors are skipped) while successful results keep being merged, and a merge
finding a missing pairwise entry aborts the whole call at once. -/
def drainResults (getDist : String → List String → Except String (String → Option DistanceResult))
    (hubAndDests : List String) :
    List String → Option (String × String) → (String → Option DistanceResult) →
    Except PlanError (Option (String × String) × (String → Option DistanceResult))
  | [], pairwiseErr, m => .ok (pairwiseErr, m)
  | o :: rest, pairwiseErr, m =>
      match getDist o (hubTargets hubAndDests o) with
      | .error e =>
          drainResults getDist hubAndDests rest (pairwiseErr.orElse fun _ => some (o, e)) m
      | .ok res =>
          match mergeOrigin o res hubAndDests m with
          | .error err => .error err
          | .ok m' => drainResults getDist hubAndDests rest pairwiseErr m'

/-- The per-truck planning loop at the end of `PlanDeliveries`. -/
def plansFor (departAt : Int) (pairwiseDist : String → Option DistanceResult)
    (returnToStart : Bool) : List Truck → Except PlanError (List RoutePlan)
  | [] => .ok []
  | t :: ts =>
      match NearestNeighborRoute t departAt pairwiseDist returnToStart with
      | .error e => .error (.route e)
      | .ok plan =>
          match plansFor departAt pairwiseDist returnToStart ts with
          | .error e => .error e
          | .ok plans => .ok (plan :: plans)

/-- `PlanDeliveries` (src/unnamed/part_002).  The external collaborators are
oracles: `repoResult` is what `repo.ListPackages` returns, `getDist` is the
batched provider (`GetDistances`) and `arrival` is the order in which the
concurrent per-origin workers' results arrive on the channel (a permutation of
the origin set — concurrency shows up only through this order).  Note that Go's
`slices.SortFunc` inside the assignment step sorts the shared `destinations`
slice in place, so the pairwise fan-out that follows iterates the sorted list. -/
def PlanDeliveries (req : PlanDeliveriesRequest)
    (repoResult : Except String (List Package))
    (getDist : String → List String → Except String (String → Option DistanceResult))
    (arrival : List String) : Except PlanError (List RoutePlan) :=
  match repoResult with
  | .error e => .error (.listPackages e)
  | .ok pkgs =>
      match pkgs.find? (fun p => goTrimSpace p.destination = "") with
      | some p => .error (.emptyPackageDestination p.packageID)
      | none =>
          let pkgDest := pkgDestOf pkgs
          let destinations := groupedDestinations pkgs
          if destinations.isEmpty then .ok []
          else
            match getDist req.hub destinations with
            | .error e => .error (.hubDistances e)
            | .ok results =>
                match destinations.find? (fun d => (results d).isNone) with
                | some d => .error (.missingHubDistance d)
                | none =>
                    let distances := hubDistancesMap pkgs results
                    let trucks := planTrucks req
                    match AssignPackagesByDistance trucks pkgDest distances destinations with
                    | .error e => .error (.assign e)
                    | .ok trucks' =>
                        let hubAndDests := planHubAndDests req pkgs results
                        let pairwiseDist0 := (sortDest distances destinations).foldl
                          (fun m d => insertKV m (distKey req.hub d) ((distances d).getD ⟨0, 0⟩))
                          (fun _ => none)
                        match drainResults getDist hubAndDests arrival none pairwiseDist0 with
                        | .error e => .error e
                        | .ok (some (o, e), _) => .error (.pairwiseGet o e)
                        | .ok (none, pairwiseDist) =>
                            plansFor req.departAt pairwiseDist req.returnToStart trucks'

/-- Go `strings.Fields` on a character list (`cur` accumulates the current word
reversed). -/
def fieldsGo : List Char → List Char → List (List Char)
  | [], cur => if cur.isEmpty then [] else [cur.reverse]
  | c :: cs, cur =>
      if c.isWhitespace then
        if cur.isEmpty then fieldsGo cs [] else cur.reverse :: fieldsGo cs []
      else fieldsGo cs (c :: cur)

/-- `ORSDistanceProvider.normalize`: `strings.Join(strings.Fields(s), " ")` —
collapse whitespace runs to single spaces and trim the ends. -/
def normalizeAddr (s : String) : String :=
  ⟨List.intercalate [' '] (fieldsGo s.data [])⟩

/-- The requested destination set of a `GetDistances` call: normalized, empties
dropped, deduplicated (first occurrence), and destinations equal to the
normalized origin dropped. -/
def destListOf (origin : String) (destinations : List String) : List String :=
  dedupFirstAux []
    (((destinations.map normalizeAddr).filter (fun d => d ≠ "")).filter
      (fun d => d ≠ normalizeAddr origin))

/-- Errors of the ORS resolver path.  Upstream/cache failures are opaque
strings. -/
inductive OrsError
  /-- "origin must be non-empty" -/
  | emptyOrigin
  /-- "ORS get distance cache: %w" -/
  | cacheRead (e : String)
  /-- "ORS get geocode cache: %w" -/
  | geocodeCacheRead (e : String)
  /-- "retrieving coordinates: %w" -/
  | geocodeFailed (e : String)
  /-- "missing coordinate for origin %q" -/
  | missingOriginCoordinate (a : String)
  /-- "missing coordinate for destination %q" -/
  | missingCoordinate (d : String)
  /-- "destinations and destinationCoords are expected to have the same length" -/
  | lengthMismatch
  /-- "matrix request failed: %w" (HTTP or decode failure) -/
  | matrixRequest (e : String)
  /-- "expected 1 source row; got ..." -/
  | badMatrixShape
  /-- "row lengths do not match destinations: ..." -/
  | badRowLength
  /-- "matrix returned invalid metrics for %q" (null entry) -/
  | invalidMetrics (d : String)
  /-- "ORS matrix service did not return the following destinations: ..." -/
  | matrixMissing (ds : List String)
deriving DecidableEq, Repr

/-- A decoded ORS matrix response.  ORS returns nullable float metrics; the
claims never depend on float arithmetic, so an entry is modelled as the
already-rounded integer and a JSON `null` as `none`. -/
structure MatrixResponse where
  distances : List (List (Option Int))
  durations : List (List (Option Int))
deriving DecidableEq, Repr

/-- Build the per-destination results of `fetchMatrixRow`, failing on the first
null distance or duration entry. -/
def buildRow : List String → List (Option Int) → List (Option Int) →
    Except OrsError (List (String × DistanceResult))
  | [], _, _ => .ok []
  | d :: ds, metersPtr :: ms, secondsPtr :: ss =>
      match metersPtr, secondsPtr with
      | some meters, some seconds =>
          match buildRow ds ms ss with
          | .error e => .error e
          | .ok rest => .ok ((d, ⟨meters, seconds⟩) :: rest)
      | _, _ => .error (.invalidMetrics d)
  | _ :: _, _, _ => .error .badRowLength

/-- `fetchMatrixRow` (src/internal/adapters/distance/ors_matrix.go): the
validation of the matrix response for one origin row.  `matrixHttp` stands for
the retried POST of the matrix request plus JSON decoding. -/
def fetchMatrixRow
    (matrixHttp : Coordinates → List Coordinates → Except String MatrixResponse)
    (originCoord : Coordinates) (destinations : List String)
    (destinationCoords : List Coordinates) :
    Except OrsError (String → Option DistanceResult) :=
  if destinations.length ≠ destinationCoords.length then .error .lengthMismatch
  else if destinations.isEmpty then .ok (fun _ => none)
  else
    match matrixHttp originCoord destinationCoords with
    | .error e => .error (.matrixRequest e)
    | .ok mr =>
        if mr.distances.length ≠ 1 ∨ mr.durations.length ≠ 1 then .error .badMatrixShape
        else
          let rowDistances := mr.distances.headD []
          let rowDurations := mr.durations.headD []
          if rowDistances.length ≠ destinations.length ∨
              rowDurations.length ≠ destinations.length then .error .badRowLength
          else
            match buildRow destinations rowDistances rowDurations with
            | .error e => .error e
            | .ok row => .ok (fun d => row.lookup d)

/-- Collect coordinates for the miss destinations, failing on the first address
without a coordinate. -/
def collectCoords (coords : String → Option Coordinates) :
    List String → Except OrsError (List Coordinates)
  | [] => .ok []
  | d :: ds =>
      match coords d with
      | none => .error (.missingCoordinate d)
      | some c =>
          match collectCoords coords ds with
          | .error e => .error e
          | .ok rest => .ok (c :: rest)

/-- The external collaborators of `ORSDistanceProvider.GetDistances`, as
oracles.  `none` for a cache models a nil cache field.  The best-effort
`PutMany` write-backs are logged and swallowed in Go and have no observable
effect on the returned value, so they do not appear. -/
structure OrsOracles where
  distCacheGet : Option (String → List String → Except String (String → Option DistanceResult))
  geoCacheGet : Option (List String → Except String (String → Option Coordinates))
  geocodeMany : List String → Except String (String → Option Coordinates)
  matrixHttp : Coordinates → List Coordinates → Except String MatrixResponse

/-- `ORSDistanceProvider.GetDistances`
(src/internal/adapters/distance/mock_distance_provider.go, second document):
normalize, dedup, drop the origin, consult the distance cache, geocode misses
through the geocode cache and the geocode endpoint, fetch one matrix row for
the cache misses, validate full coverage, and return cache hits merged with
fresh values. -/
def GetDistances (ox : OrsOracles) (origin : String) (destinations : List String) :
    Except OrsError (String → Option DistanceResult) :=
  if origin = "" then .error .emptyOrigin
  else if destinations.isEmpty then .ok (fun _ => none)
  else
    let normOrigin := normalizeAddr origin
    if normOrigin = "" then .error .emptyOrigin
    else
      let destList := destListOf origin destinations
      if destList.isEmpty then .ok (fun _ => none)
      else
        match (match ox.distCacheGet with
          | none => Except.ok (fun _ => none)
          | some get => (get normOrigin destList).mapError OrsError.cacheRead :
            Except OrsError (String → Option DistanceResult)) with
        | .error e => .error e
        | .ok destinationHits =>
            let destinationMisses := destList.filter (fun d => (destinationHits d).isNone)
            if destinationMisses.isEmpty then .ok destinationHits
            else
              let needed := normOrigin :: destinationMisses
              match (match ox.geoCacheGet with
                | none => Except.ok (fun _ => none)
                | some get => (get needed).mapError OrsError.geocodeCacheRead :
                  Except OrsError (String → Option Coordinates)) with
              | .error e => .error e
              | .ok geocodeHits =>
                  let geocodeMisses := needed.filter (fun a => (geocodeHits a).isNone)
                  match (if geocodeMisses.isEmpty then Except.ok (fun _ => none)
                    else (ox.geocodeMany geocodeMisses).mapError OrsError.geocodeFailed :
                    Except OrsError (String → Option Coordinates)) with
                  | .error e => .error e
                  | .ok fresh =>
                      let coords : String → Option Coordinates := fun a =>
                        match fresh a with
                        | some c => some c
                        | none => geocodeHits a
                      match coords normOrigin with
                      | none => .error (.missingOriginCoordinate normOrigin)
                      | some originCoord =>
                          match collectCoords coords destinationMisses with
                          | .error e => .error e
                          | .ok destinationCoords =>
                              match fetchMatrixRow ox.matrixHttp originCoord
                                  destinationMisses destinationCoords with
                              | .error e => .error e
                              | .ok fetched =>
                                  let missing := destinationMisses.filter
                                    (fun d => (fetched d).isNone)
                                  if missing.isEmpty then
                                    .ok (fun d =>
                                      match fetched d with
                                      | some r => some r
                                      | none => destinationHits d)
                                  else .error (.matrixMissing missing)

/-- A failure of one `do(req)` call: an HTTP status-error (`httpStatusError`)
or a network-level error (`net.Error`). -/
inductive RetryErr
  | http (code : Int) (body : String)
  | net
deriving DecidableEq, Repr

/-- Outcome of the `o.do(req)` call of one attempt (the response is abstracted
to an id). -/
inductive AttemptOutcome
  | ok (respId : Nat)
  | err (e : RetryErr)
deriving DecidableEq, Repr

/-- What `doWithRetry` can return: a response, a context-cancellation error, a
`makeReq` failure, or the last transport failure. -/
inductive DoError
  /-- `ctx.Err()` surfaced (top-of-loop check or cancelled backoff wait) -/
  | ctxErr
  /-- "make request: %w" -/
  | makeReqFailed
  /-- the `lastErr` transport failure returned when the attempt is not
  retryable or the budget is exhausted -/
  | transport (e : RetryErr)
deriving DecidableEq, Repr

/-- The transient-failure classification of `doWithRetry`: HTTP
429/500/502/503/504, or any network-level error. -/
def retryClassify (e : RetryErr) : Bool :=
  match e with
  | .http code _ =>
      code = 429 ∨ code = 500 ∨ code = 502 ∨ code = 503 ∨ code = 504
  | .net => true

/-- One run of `doWithRetry`'s loop (src/unnamed/part_008).  Oracles:
`ctxTop k` is whether `ctx.Err()` is non-nil at the top of the (k+1)-th
iteration, `ctxWait k` whether the context fires during the backoff wait after
the (k+1)-th attempt, `mkOk k` whether `makeReq()` succeeds, and `out k` the
outcome of the (k+1)-th `o.do(req)` call.  Besides the result it returns the
number of `do` calls made and the list of backoff waits performed (in ms). -/
def doWithRetryAux (ctxTop ctxWait : Nat → Bool) (mkOk : Nat → Bool)
    (out : Nat → AttemptOutcome) :
    Nat → Nat → Int → Option RetryErr → Nat → List Int →
    Except DoError Nat × Nat × List Int
  | 0, _, _, lastErr, made, waits => (.error (.transport (lastErr.getD .net)), made, waits)
  | remaining + 1, k, backoff, _, made, waits =>
      if ctxTop k then (.error .ctxErr, made, waits)
      else if mkOk k = false then (.error .makeReqFailed, made, waits)
      else
        match out k with
        | .ok respId => (.ok respId, made + 1, waits)
        | .err e =>
            if retryClassify e = false ∨ remaining = 0 then
              (.error (.transport e), made + 1, waits)
            else if ctxWait k then (.error .ctxErr, made + 1, waits)
            else
              doWithRetryAux ctxTop ctxWait mkOk out remaining (k + 1) (backoff * 2)
                (some e) (made + 1) (waits ++ [backoff])

/-- `doWithRetry` (src/unnamed/part_008): `maxAttempts = 4`, initial backoff
200 ms, doubling each retry. -/
def doWithRetry (ctxTop ctxWait : Nat → Bool) (mkOk : Nat → Bool)
    (out : Nat → AttemptOutcome) : Except DoError Nat × Nat × List Int :=
  doWithRetryAux ctxTop ctxWait mkOk out 4 0 200 none 0 []

/-- The strict "(duration, destination string) lexicographically smaller"
order the greedy step minimizes. -/
def choiceLt (dur : String → Int) (a b : String) : Prop :=
  dur a < dur b ∨ (dur a = dur b ∧ goStrLt a b = true)

/-- The current location after a stop sequence: the last stop's destination,
or the given location if there are no stops. -/
def lastDest (cur : String) : List RouteStop → String
  | [] => cur
  | s :: ns => lastDest s.destination ns

/-- `GreedyStops dist byDest cur time remaining ns dTot mTot`: starting at
`cur` at `time` with `remaining` unvisited destinations, the stop sequence `ns`
is exactly the one obtained by repeatedly choosing the unvisited destination
with minimal travel duration from the current location (ties broken by the
lexicographically smallest destination string); each chosen destination yields
one stop whose arrival time advances by the chosen leg's duration and whose
package ids are the grouped ids for that destination, and `dTot`/`mTot` are
the sums of the chosen legs' durations/distances. -/
inductive GreedyStops (dist : String → Option DistanceResult) (byDest : String → List Int) :
    String → Int → List String → List RouteStop → Int → Int → Prop
  | nil (cur : String) (time : Int) : GreedyStops dist byDest cur time [] [] 0 0
  | cons (cur : String) (time : Int) (remaining : List String) (best : String)
      (ns : List RouteStop) (dTot mTot : Int) :
      best ∈ remaining →
      (∀ d ∈ remaining, d ≠ best → choiceLt (durOf dist cur) best d) →
      GreedyStops dist byDest best (time + durOf dist cur best) (remaining.erase best)
        ns dTot mTot →
      GreedyStops dist byDest cur time remaining
        (⟨best, time + durOf dist cur best, byDest best⟩ :: ns)
        (durOf dist cur best + dTot) (metersOf dist cur best + mTot)

/-- Whether an `Except` result is a success. -/
def exceptOk {ε α : Type} : Except ε α → Bool
  | .ok _ => true
  | .error _ => false

/-- The destinations kept by the fold's `math.MaxInt64` sentinel (every Go
`int` satisfies the bound; values above it exist only in the idealized `Int`
model and are never selected). -/
def visibleBelowMax (dur : String → Int) (ds : List String) : List String :=
  ds.filter (fun d => dur d ≤ maxInt64)

/-- The section 8 worked example's truck: three packages for A, B, C, starting
at HUB (src/internal/services/route_planner_test.go). -/
def exampleTruck : Truck := ⟨1, 3, "HUB", [⟨1, "A"⟩, ⟨2, "B"⟩, ⟨3, "C"⟩]⟩

/-- The section 8 worked example's distance map
(src/internal/services/route_planner_test.go). -/
def exampleDistances : String → Option DistanceResult := fun k =>
  if k = "HUB|A" then some ⟨1000, 300⟩
  else if k = "HUB|B" then some ⟨2000, 600⟩
  else if k = "HUB|C" then some ⟨1500, 450⟩
  else if k = "A|B" then some ⟨800, 240⟩
  else if k = "A|C" then some ⟨700, 210⟩
  else if k = "B|C" then some ⟨900, 270⟩
  else if k = "A|HUB" then some ⟨1000, 300⟩
  else if k = "B|HUB" then some ⟨2000, 600⟩
  else if k = "C|HUB" then some ⟨1500, 450⟩
  else if k = "B|A" then some ⟨800, 240⟩
  else if k = "C|A" then some ⟨700, 210⟩
  else if k = "C|B" then some ⟨900, 270⟩
  else none

/-- Invariant of the selection fold after processing the destinations `seen`:
either nothing at-or-below the sentinel has been seen and the accumulator is
still the sentinel, or the accumulator holds the unique
(duration, name)-least seen destination below the sentinel. -/
def goodAcc (dur : String → Int) (seen : List String) (acc : String × Int) : Prop :=
  (acc = ("", maxInt64) ∧ visibleBelowMax dur seen = []) ∨
  (acc.1 ∈ visibleBelowMax dur seen ∧ acc.2 = dur acc.1 ∧
    ∀ d ∈ visibleBelowMax dur seen, d ≠ acc.1 → choiceLt dur acc.1 d)

/-! ## Order theory of the Go byte-wise string comparison -/

theorem charsLt_nil_right (a : List Char) : charsLt a [] = false := by
  cases a <;> rfl

theorem charsLt_irrefl (l : List Char) : charsLt l l = false := by
  induction l with
  | nil => rfl
  | cons a as ih => simp [charsLt, ih]

theorem charsLt_asymm : ∀ (a b : List Char), charsLt a b = true → charsLt b a = false := by
  intro a
  induction a with
  | nil =>
    intro b h
    cases b with
    | nil => simp [charsLt] at h
    | cons y ys => simp [charsLt_nil_right]
  | cons x xs ih =>
    intro b h
    cases b with
    | nil => simp [charsLt_nil_right] at h
    | cons y ys =>
      rcases Nat.lt_trichotomy x.toNat y.toNat with hlt | heq | hgt
      · simp [charsLt, hlt, Nat.lt_asymm hlt]
      · have hxy : ¬ x.toNat < y.toNat := by omega
        have hyx : ¬ y.toNat < x.toNat := by omega
        simp only [charsLt, if_neg hxy, if_neg hyx] at h ⊢
        exact ih ys h
      · simp only [charsLt, if_neg (Nat.lt_asymm hgt), if_pos hgt] at h
        cases h

theorem charsLt_trans :
    ∀ (a b c : List Char), charsLt a b = true → charsLt b c = true → charsLt a c = true := by
  intro a
  induction a with
  | nil =>
    intro b c hab hbc
    cases c with
    | nil => cases b <;> simp [charsLt, charsLt_nil_right] at hab hbc
    | cons z zs => rfl
  | cons x xs ih =>
    intro b c hab hbc
    cases b with
    | nil => simp [charsLt_nil_right] at hab
    | cons y ys =>
      cases c with
      | nil => simp [charsLt_nil_right] at hbc
      | cons z zs =>
        rcases Nat.lt_trichotomy x.toNat y.toNat with hxy | hxy | hxy
        · rcases Nat.lt_trichotomy y.toNat z.toNat with hyz | hyz | hyz
          · simp [charsLt, show x.toNat < z.toNat by omega]
          · simp [charsLt, show x.toNat < z.toNat by omega]
          · simp only [charsLt, if_neg (show ¬ y.toNat < z.toNat by omega),
              if_pos hyz] at hbc
            cases hbc
        · rcases Nat.lt_trichotomy y.toNat z.toNat with hyz | hyz | hyz
          · simp [charsLt, show x.toNat < z.toNat by omega]
          · simp only [charsLt, if_neg (show ¬ x.toNat < y.toNat by omega),
              if_neg (show ¬ y.toNat < x.toNat by omega)] at hab
            simp only [charsLt, if_neg (show ¬ y.toNat < z.toNat by omega),
              if_neg (show ¬ z.toNat < y.toNat by omega)] at hbc
            simp only [charsLt, if_neg (show ¬ x.toNat < z.toNat by omega),
              if_neg (show ¬ z.toNat < x.toNat by omega)]
            exact ih ys zs hab hbc
          · simp only [charsLt, if_neg (show ¬ y.toNat < z.toNat by omega),
              if_pos hyz] at hbc
            cases hbc
        · simp only [charsLt, if_neg (show ¬ x.toNat < y.toNat by omega),
            if_pos hxy] at hab
          cases hab

theorem charsLt_total :
    ∀ (a b : List Char), a ≠ b → charsLt a b = true ∨ charsLt b a = true := by
  intro a
  induction a with
  | nil =>
    intro b hne
    cases b with
    | nil => exact absurd rfl hne
    | cons y ys => exact Or.inl rfl
  | cons x xs ih =>
    intro b hne
    cases b with
    | nil => exact Or.inr rfl
    | cons y ys =>
      rcases Nat.lt_trichotomy x.toNat y.toNat with hlt | heq | hgt
      · exact Or.inl (by simp [charsLt, hlt])
      · have hxy : x = y := Char.ext (UInt32.ext heq)
        have htail : xs ≠ ys := by
          intro h; exact hne (by rw [hxy, h])
        have h1 : ¬ x.toNat < y.toNat := by omega
        have h2 : ¬ y.toNat < x.toNat := by omega
        rcases ih ys htail with h | h
        · exact Or.inl (by simp only [charsLt, if_neg h1, if_neg h2]; exact h)
        · exact Or.inr (by simp only [charsLt, if_neg h2, if_neg h1]; exact h)
      · exact Or.inr (by simp [charsLt, hgt])

theorem goStrLt_irrefl (s : String) : goStrLt s s = false := charsLt_irrefl _

theorem goStrLt_asymm {a b : String} (h : goStrLt a b = true) : goStrLt b a = false :=
  charsLt_asymm _ _ h

theorem goStrLt_trans {a b c : String} (hab : goStrLt a b = true) (hbc : goStrLt b c = true) :
    goStrLt a c = true :=
  charsLt_trans _ _ _ hab hbc

theorem goStrLt_total {a b : String} (hne : a ≠ b) :
    goStrLt a b = true ∨ goStrLt b a = true :=
  charsLt_total _ _ (fun h => hne (String.ext h))

theorem choiceLt_asymm {dur : String → Int} {a b : String} (h : choiceLt dur a b) :
    ¬ choiceLt dur b a := by
  rcases h with h | ⟨heq, hlt⟩
  · rintro (h' | ⟨heq', _⟩) <;> omega
  · rintro (h' | ⟨heq', hlt'⟩)
    · omega
    · have := goStrLt_asymm hlt
      rw [this] at hlt'
      cases hlt'

/-! ## Characterization of the greedy selection fold -/

theorem visibleBelowMax_append (dur : String → Int) (l₁ l₂ : List String) :
    visibleBelowMax dur (l₁ ++ l₂) = visibleBelowMax dur l₁ ++ visibleBelowMax dur l₂ :=
  List.filter_append _ _

theorem mem_of_mem_visible {dur : String → Int} {ds : List String} {d : String}
    (h : d ∈ visibleBelowMax dur ds) : d ∈ ds :=
  List.mem_of_mem_filter h

theorem le_max_of_mem_visible {dur : String → Int} {ds : List String} {d : String}
    (h : d ∈ visibleBelowMax dur ds) : dur d ≤ maxInt64 := by
  have := List.of_mem_filter h
  simpa using this

theorem selStep_good {dur : String → Int} {seen : List String} {acc : String × Int}
    {d : String} (hseen : "" ∉ seen) (hd : d ≠ "") (hdseen : d ∉ seen)
    (hgood : goodAcc dur seen acc) : goodAcc dur (seen ++ [d]) (selStep dur acc d) := by
  have hvis : visibleBelowMax dur (seen ++ [d])
      = visibleBelowMax dur seen ++ visibleBelowMax dur [d] :=
    visibleBelowMax_append dur seen [d]
  by_cases hcond : dur d < acc.2 ∨ (dur d = acc.2 ∧ (acc.1 = "" ∨ goStrLt d acc.1 = true))
  · have hstep : selStep dur acc d = (d, dur d) := by simp [selStep, hcond]
    rcases hgood with ⟨hacc, hempty⟩ | ⟨hmem, hval, hmin⟩
    · -- sentinel case: d is the first visible destination
      have hdle : dur d ≤ maxInt64 := by
        rcases hcond with h | ⟨h, _⟩
        · rw [hacc] at h; exact le_of_lt h
        · rw [hacc] at h; exact le_of_eq h
      refine Or.inr ?_
      rw [hstep, hvis, hempty]
      refine ⟨?_, rfl, ?_⟩
      · simp [visibleBelowMax, hdle]
      · intro d' hd' hne
        simp [visibleBelowMax, hdle] at hd'
        exact absurd hd' hne
    · -- accumulator already holds the least visible destination m
      have hmne : acc.1 ≠ "" := by
        intro h
        exact hseen (h ▸ mem_of_mem_visible hmem)
      have hmle : dur acc.1 ≤ maxInt64 := le_max_of_mem_visible hmem
      have hdle : dur d ≤ maxInt64 := by
        rcases hcond with h | ⟨h, _⟩
        · rw [hval] at h; omega
        · rw [hval] at h; omega
      have hchoice : choiceLt dur d acc.1 := by
        rcases hcond with h | ⟨h, hor⟩
        · exact Or.inl (hval ▸ h)
        · rcases hor with h' | h'
          · exact absurd h' hmne
          · exact Or.inr ⟨hval ▸ h, h'⟩
      refine Or.inr ?_
      rw [hstep, hvis]
      refine ⟨?_, rfl, ?_⟩
      · simp [visibleBelowMax, hdle]
      · intro d' hd' hne
        replace hne : d' ≠ d := hne
        show choiceLt dur d d'
        rw [List.mem_append] at hd'
        rcases hd' with hd' | hd'
        · by_cases hdm : d' = acc.1
          · exact hdm ▸ hchoice
          · have h1 := hmin d' hd' hdm
            rcases hchoice with h | ⟨heq, hlt⟩
            · rcases h1 with h1 | ⟨h1, _⟩
              · exact Or.inl (by omega)
              · exact Or.inl (by omega)
            · rcases h1 with h1 | ⟨h1, hlt1⟩
              · exact Or.inl (by omega)
              · exact Or.inr ⟨by omega, goStrLt_trans hlt hlt1⟩
        · simp [visibleBelowMax, hdle] at hd'
          exact absurd hd' hne
  · have hstep : selStep dur acc d = acc := by simp [selStep, hcond]
    push_neg at hcond
    obtain ⟨hnlt, hncond⟩ := hcond
    rcases hgood with ⟨hacc, hempty⟩ | ⟨hmem, hval, hmin⟩
    · -- sentinel stays: d must be above the sentinel
      refine Or.inl ⟨by rw [hstep]; exact hacc, ?_⟩
      rw [hvis, hempty]
      have : ¬ dur d ≤ maxInt64 := by
        intro hle
        rcases lt_or_eq_of_le hle with h | h
        · rw [hacc] at hnlt; simp at hnlt; omega
        · rw [hacc] at hncond; simp at hncond
          have := hncond h
          simp at this
      simp [visibleBelowMax, this]
    · -- accumulator m stays least
      have hmne : acc.1 ≠ "" := by
        intro h
        exact hseen (h ▸ mem_of_mem_visible hmem)
      refine Or.inr ?_
      rw [hstep, hvis]
      refine ⟨List.mem_append_left _ hmem, hval, ?_⟩
      intro d' hd' hne
      rw [List.mem_append] at hd'
      rcases hd' with hd' | hd'
      · exact hmin d' hd' hne
      · have hdle : dur d' ≤ maxInt64 := le_max_of_mem_visible hd'
        have hdd : d' = d := by
          have := mem_of_mem_visible hd'
          simpa using this
        subst hdd
        have hmd : acc.1 ≠ d' := by
          intro h
          exact hdseen (h ▸ mem_of_mem_visible hmem)
        rw [hval] at hnlt hncond
        rcases lt_or_le (dur acc.1) (dur d') with h | h
        · exact Or.inl h
        · have heq : dur d' = dur acc.1 := by omega
          have hnor := hncond heq
          push_neg at hnor
          obtain ⟨_, hnlt'⟩ := hnor
          rcases goStrLt_total (Ne.symm hmd) with hl | hl
          · rw [hl] at hnlt'; cases hnlt' rfl
          · exact Or.inr ⟨heq.symm, hl⟩

theorem selectFoldl_good {dur : String → Int} :
    ∀ (ds seen : List String) (acc : String × Int),
      "" ∉ seen → "" ∉ ds → (∀ d ∈ ds, d ∉ seen) → ds.Nodup →
      goodAcc dur seen acc → goodAcc dur (seen ++ ds) (ds.foldl (selStep dur) acc) := by
  intro ds
  induction ds with
  | nil =>
    intro seen acc _ _ _ _ hgood
    simpa using hgood
  | cons d ds ih =>
    intro seen acc hseen hds hdisj hnd hgood
    have hd : d ≠ "" := by
      intro h
      exact hds (h ▸ List.mem_cons_self d ds)
    have hgood' : goodAcc dur (seen ++ [d]) (selStep dur acc d) :=
      selStep_good hseen hd (hdisj d (List.mem_cons_self d ds)) hgood
    have hres := ih (seen ++ [d]) (selStep dur acc d)
      (by
        intro h
        rcases List.mem_append.mp h with h | h
        · exact hseen h
        · simp at h; exact hd h.symm)
      (fun h => hds (List.mem_cons_of_mem d h))
      (by
        intro x hx
        intro h
        rcases List.mem_append.mp h with h | h
        · exact hdisj x (List.mem_cons_of_mem d hx) h
        · simp at h
          subst h
          exact (List.nodup_cons.mp hnd).1 hx)
      (List.nodup_cons.mp hnd).2
      hgood'
    rw [List.append_cons]
    exact hres

theorem selectBest_good {dur : String → Int} {ds : List String}
    (hne : "" ∉ ds) (hnd : ds.Nodup) : goodAcc dur ds (selectBest dur ds) := by
  have := @selectFoldl_good dur ds [] ("", maxInt64)
    (by simp) hne (by simp) hnd (Or.inl ⟨rfl, rfl⟩)
  simpa [selectBest] using this

theorem selectBest_spec {dur : String → Int} {ds : List String}
    (hne : "" ∉ ds) (hnd : ds.Nodup) (hbound : ∀ d ∈ ds, dur d ≤ maxInt64)
    (hnonempty : ds ≠ []) :
    (selectBest dur ds).1 ∈ ds ∧ (selectBest dur ds).2 = dur (selectBest dur ds).1 ∧
      ∀ d ∈ ds, d ≠ (selectBest dur ds).1 → choiceLt dur (selectBest dur ds).1 d := by
  have hvis : visibleBelowMax dur ds = ds :=
    List.filter_eq_self.mpr (by intro a ha; simpa using hbound a ha)
  rcases @selectBest_good dur ds hne hnd with ⟨_, hempty⟩ | ⟨hmem, hval, hmin⟩
  · rw [hvis] at hempty
    exact absurd hempty hnonempty
  · rw [hvis] at hmem hmin
    exact ⟨hmem, hval, hmin⟩

theorem selectBest_perm {dur : String → Int} {ds₁ ds₂ : List String}
    (hperm : ds₁.Perm ds₂) (hne : "" ∉ ds₁) (hnd : ds₁.Nodup) :
    selectBest dur ds₁ = selectBest dur ds₂ := by
  have hne₂ : "" ∉ ds₂ := fun h => hne (hperm.mem_iff.mpr h)
  have hnd₂ : ds₂.Nodup := hperm.nodup_iff.mp hnd
  have hvperm : (visibleBelowMax dur ds₁).Perm (visibleBelowMax dur ds₂) :=
    hperm.filter _
  rcases @selectBest_good dur ds₁ hne hnd with ⟨hacc₁, hempty₁⟩ | ⟨hmem₁, hval₁, hmin₁⟩ <;>
    rcases @selectBest_good dur ds₂ hne₂ hnd₂ with ⟨hacc₂, hempty₂⟩ | ⟨hmem₂, hval₂, hmin₂⟩
  · rw [hacc₁, hacc₂]
  · rw [hempty₁] at hvperm
    rw [hvperm.symm.eq_nil] at hmem₂
    cases hmem₂
  · rw [hempty₂] at hvperm
    rw [hvperm.eq_nil] at hmem₁
    cases hmem₁
  · have hmem₁' : (selectBest dur ds₁).1 ∈ visibleBelowMax dur ds₂ :=
      hvperm.mem_iff.mp hmem₁
    have hmem₂' : (selectBest dur ds₂).1 ∈ visibleBelowMax dur ds₁ :=
      hvperm.mem_iff.mpr hmem₂
    by_cases heq : (selectBest dur ds₁).1 = (selectBest dur ds₂).1
    · have h2 : (selectBest dur ds₁).2 = (selectBest dur ds₂).2 := by
        rw [hval₁, hval₂, heq]
      exact Prod.ext heq h2
    · have h1 := hmin₂ _ hmem₁' heq
      have h2 := hmin₁ _ hmem₂' (Ne.symm heq)
      exact absurd h2 (choiceLt_asymm h1)

theorem selectBest_fst_eq_empty_or_mem (dur : String → Int) :
    ∀ (ds : List String) (acc : String × Int),
      (ds.foldl (selStep dur) acc).1 = acc.1 ∨ (ds.foldl (selStep dur) acc).1 ∈ ds := by
  intro ds
  induction ds with
  | nil => intro acc; exact Or.inl rfl
  | cons d ds ih =>
    intro acc
    rw [List.foldl_cons]
    rcases ih (selStep dur acc d) with h | h
    · rw [h]
      by_cases hcond : dur d < acc.2 ∨ (dur d = acc.2 ∧ (acc.1 = "" ∨ goStrLt d acc.1 = true))
      · right
        simp [selStep, hcond]
      · left
        simp [selStep, hcond]
    · exact Or.inr (List.mem_cons_of_mem d h)

theorem selectBest_congr {f g : String → Int} :
    ∀ (ds : List String) (acc : String × Int), (∀ d ∈ ds, f d = g d) →
      ds.foldl (selStep f) acc = ds.foldl (selStep g) acc := by
  intro ds
  induction ds with
  | nil => intro acc _; rfl
  | cons d ds ih =>
    intro acc hfg
    rw [List.foldl_cons, List.foldl_cons]
    have hstep : selStep f acc d = selStep g acc d := by
      unfold selStep
      rw [hfg d (List.mem_cons_self d ds)]
    rw [hstep]
    exact ih _ (fun d' hd' => hfg d' (List.mem_cons_of_mem d hd'))

/-! ## Key-listing and loop lemmas -/

theorem mem_dedupFirstAux :
    ∀ (l seen : List String) (x : String),
      x ∈ dedupFirstAux seen l ↔ x ∈ l ∧ x ∉ seen := by
  intro l
  induction l with
  | nil => intro seen x; simp [dedupFirstAux]
  | cons y ys ih =>
    intro seen x
    by_cases hy : y ∈ seen
    · rw [dedupFirstAux, if_pos hy, ih]
      constructor
      · rintro ⟨hx, hns⟩
        exact ⟨List.mem_cons_of_mem y hx, hns⟩
      · rintro ⟨hx, hns⟩
        rcases List.mem_cons.mp hx with h | h
        · exact absurd (h ▸ hy) hns
        · exact ⟨h, hns⟩
    · rw [dedupFirstAux, if_neg hy]
      constructor
      · intro hx
        rcases List.mem_cons.mp hx with h | h
        · exact ⟨h ▸ List.mem_cons_self y ys, h ▸ hy⟩
        · have := (ih (y :: seen) x).mp h
          refine ⟨List.mem_cons_of_mem y this.1, ?_⟩
          intro hs
          exact this.2 (List.mem_cons_of_mem y hs)
      · rintro ⟨hx, hns⟩
        by_cases hxy : x = y
        · exact hxy ▸ List.mem_cons_self y (dedupFirstAux (y :: seen) ys)
        · rcases List.mem_cons.mp hx with h | h
          · exact absurd h hxy
          · refine List.mem_cons_of_mem y ((ih (y :: seen) x).mpr ⟨h, ?_⟩)
            intro hs
            rcases List.mem_cons.mp hs with h' | h'
            · exact hxy h'
            · exact hns h'

theorem nodup_dedupFirstAux :
    ∀ (l seen : List String), (dedupFirstAux seen l).Nodup := by
  intro l
  induction l with
  | nil => intro seen; exact List.nodup_nil
  | cons y ys ih =>
    intro seen
    by_cases hy : y ∈ seen
    · rw [dedupFirstAux, if_pos hy]
      exact ih seen
    · rw [dedupFirstAux, if_neg hy]
      refine List.nodup_cons.mpr ⟨?_, ih (y :: seen)⟩
      intro hmem
      exact ((mem_dedupFirstAux ys (y :: seen) y).mp hmem).2 (List.mem_cons_self y seen)

theorem destKeys_nodup (packages : List Package) : (destKeys packages).Nodup :=
  nodup_dedupFirstAux _ _

theorem mem_destKeys {packages : List Package} {x : String} :
    x ∈ destKeys packages ↔ x ∈ packages.map (·.destination) := by
  rw [destKeys, mem_dedupFirstAux]
  simp

theorem lastDest_cons (cur : String) (s : RouteStop) (ns : List RouteStop) :
    lastDest cur (s :: ns) = lastDest s.destination ns := rfl

theorem greedyStops_dests_perm {dist : String → Option DistanceResult}
    {byDest : String → List Int} :
    ∀ {cur : String} {time : Int} {remaining : List String} {ns : List RouteStop}
      {dS mS : Int}, GreedyStops dist byDest cur time remaining ns dS mS →
      (ns.map (·.destination)).Perm remaining := by
  intro cur time remaining ns dS mS h
  induction h with
  | nil => exact List.Perm.refl _
  | cons cur time remaining best ns dTot mTot hmem hmin _ ih =>
    show (best :: ns.map (·.destination)).Perm remaining
    exact (ih.cons best).trans (List.perm_cons_erase hmem).symm

theorem greedyStops_pkgids {dist : String → Option DistanceResult}
    {byDest : String → List Int} :
    ∀ {cur : String} {time : Int} {remaining : List String} {ns : List RouteStop}
      {dS mS : Int}, GreedyStops dist byDest cur time remaining ns dS mS →
      ∀ s ∈ ns, s.packageIDs = byDest s.destination := by
  intro cur time remaining ns dS mS h
  induction h with
  | nil => intro s hs; cases hs
  | cons cur time remaining best ns dTot mTot hmem hmin _ ih =>
    intro s hs
    rcases List.mem_cons.mp hs with h | h
    · rw [h]
    · exact ih s h

theorem routeLoop_greedy {dist : String → Option DistanceResult} {byDest : String → List Int}
    {U : List String}
    (hcov : ∀ x ∈ U, ∀ y ∈ U, x ≠ y → (dist (distKey x y)).isSome = true) :
    ∀ (fuel k : Nat) (remaining : List String) (cur : String) (time totDur totDist : Int)
      (stops : List RouteStop),
      remaining.length ≤ fuel → remaining.Nodup → (∀ d ∈ remaining, d ≠ "") →
      (∀ d ∈ remaining, d ∈ U) → cur ∈ U →
      (cur ∉ remaining ∨ (dist (distKey cur cur)).isSome = true) →
      (∀ x ∈ U, ∀ y ∈ U, durOf dist x y ≤ maxInt64) →
      ∃ ns dS mS, GreedyStops dist byDest cur time remaining ns dS mS ∧
        routeLoop dist byDest (fun _ l => l) fuel k remaining cur time totDur totDist stops
          = .ok ⟨stops ++ ns, lastDest cur ns, totDist + mS, totDur + dS⟩ := by
  intro fuel
  induction fuel with
  | zero =>
    intro k remaining cur time totDur totDist stops hlen _ _ _ _ _ _
    have hrem : remaining = [] := List.eq_nil_of_length_eq_zero (Nat.le_zero.mp hlen)
    subst hrem
    exact ⟨[], 0, 0, GreedyStops.nil cur time, by simp [routeLoop, lastDest]⟩
  | succ f ih =>
    intro k remaining cur time totDur totDist stops hlen hnd hne hU hcur hcself hbound
    cases remaining with
    | nil =>
      exact ⟨[], 0, 0, GreedyStops.nil cur time, by simp [routeLoop, lastDest]⟩
    | cons r rs =>
      have hnE : "" ∉ (r :: rs) := fun h => (hne "" h) rfl
      have hfind : (r :: rs).find? (fun d => (dist (distKey cur d)).isNone) = none := by
        rw [List.find?_eq_none]
        intro x hx h
        rw [Option.isNone_iff_eq_none] at h
        by_cases hxc : cur = x
        · rcases hcself with hnin | hsome
          · exact hnin (hxc ▸ hx)
          · subst hxc
            rw [h] at hsome
            cases hsome
        · have hsome := hcov cur hcur x (hU x hx) hxc
          rw [h] at hsome
          cases hsome
      obtain ⟨hmem, hval, hmin⟩ :=
        @selectBest_spec (fun d => durOf dist cur d) (r :: rs) hnE hnd
          (fun d hd => hbound cur hcur d (hU d hd)) (by simp)
      have hbne : (selectBest (fun d => durOf dist cur d) (r :: rs)).1 ≠ "" :=
        fun h => hnE (h ▸ hmem)
      obtain ⟨ns', dS', mS', hg', heq'⟩ :=
        ih (k + 1) ((r :: rs).erase (selectBest (fun d => durOf dist cur d) (r :: rs)).1)
          (selectBest (fun d => durOf dist cur d) (r :: rs)).1
          (time + durOf dist cur (selectBest (fun d => durOf dist cur d) (r :: rs)).1)
          (totDur + durOf dist cur (selectBest (fun d => durOf dist cur d) (r :: rs)).1)
          (totDist + metersOf dist cur (selectBest (fun d => durOf dist cur d) (r :: rs)).1)
          (stops ++ [⟨(selectBest (fun d => durOf dist cur d) (r :: rs)).1,
            time + durOf dist cur (selectBest (fun d => durOf dist cur d) (r :: rs)).1,
            byDest (selectBest (fun d => durOf dist cur d) (r :: rs)).1⟩])
          (by
            rw [List.length_erase_of_mem hmem]
            simp only [List.length_cons] at hlen ⊢
            omega)
          (hnd.erase _)
          (fun d hd => hne d (List.mem_of_mem_erase hd))
          (fun d hd => hU d (List.mem_of_mem_erase hd))
          (hU _ hmem)
          (Or.inl (fun h => ((hnd.mem_erase_iff).mp h).1 rfl))
          hbound
      refine ⟨⟨(selectBest (fun d => durOf dist cur d) (r :: rs)).1,
          time + durOf dist cur (selectBest (fun d => durOf dist cur d) (r :: rs)).1,
          byDest (selectBest (fun d => durOf dist cur d) (r :: rs)).1⟩ :: ns',
        durOf dist cur (selectBest (fun d => durOf dist cur d) (r :: rs)).1 + dS',
        metersOf dist cur (selectBest (fun d => durOf dist cur d) (r :: rs)).1 + mS',
        GreedyStops.cons cur time (r :: rs) _ ns' dS' mS' hmem hmin hg', ?_⟩
      show routeLoop dist byDest (fun _ l => l) (f + 1) k (r :: rs) cur time totDur totDist stops
        = _
      rw [routeLoop]
      simp only [List.isEmpty_cons, Bool.false_eq_true, if_false, hfind]
      rw [if_neg hbne, heq']
      simp [lastDest_cons, List.append_assoc, add_assoc]

theorem flatMap_congr_mem {α β : Type} :
    ∀ (l : List α) (f g : α → List β), (∀ x ∈ l, f x = g x) → l.flatMap f = l.flatMap g := by
  intro l
  induction l with
  | nil => intro f g _; rfl
  | cons a as ih =>
    intro f g h
    rw [List.flatMap_cons, List.flatMap_cons, h a (List.mem_cons_self a as),
      ih f g (fun x hx => h x (List.mem_cons_of_mem a hx))]

theorem byDestination_filter_ne {pkgs : List Package} {k d : String} (hne : d ≠ k) :
    byDestination (pkgs.filter (fun p => p.destination ≠ k)) d = byDestination pkgs d := by
  unfold byDestination
  congr 1
  rw [List.filter_filter]
  apply List.filter_congr
  intro p _
  by_cases h : p.destination = d
  · simp [h, hne]
  · simp [h]

theorem flatMap_byDestination_perm :
    ∀ (keys : List String) (pkgs : List Package), keys.Nodup →
      (∀ p ∈ pkgs, p.destination ∈ keys) →
      (keys.flatMap (byDestination pkgs)).Perm (pkgs.map (·.packageID)) := by
  intro keys
  induction keys with
  | nil =>
    intro pkgs _ hall
    cases pkgs with
    | nil => simp
    | cons p ps => exact absurd (hall p (List.mem_cons_self p ps)) (List.not_mem_nil _)
  | cons k ks ih =>
    intro pkgs hnd hall
    rw [List.flatMap_cons]
    have hkn : k ∉ ks := (List.nodup_cons.mp hnd).1
    have htail : ks.flatMap (byDestination pkgs)
        = ks.flatMap (byDestination (pkgs.filter (fun p => p.destination ≠ k))) := by
      apply flatMap_congr_mem
      intro d hd
      have hne : d ≠ k := fun h => hkn (h ▸ hd)
      exact (byDestination_filter_ne hne).symm
    have hperm2 : (ks.flatMap (byDestination pkgs)).Perm
        ((pkgs.filter (fun p => p.destination ≠ k)).map (·.packageID)) := by
      rw [htail]
      apply ih
      · exact (List.nodup_cons.mp hnd).2
      · intro p hp
        have hmem := List.mem_of_mem_filter hp
        have hne : p.destination ≠ k := by simpa using List.of_mem_filter hp
        rcases List.mem_cons.mp (hall p hmem) with h | h
        · exact absurd h hne
        · exact h
    have hsplit : ((pkgs.filter (fun p => p.destination = k)).map (·.packageID) ++
        (pkgs.filter (fun p => p.destination ≠ k)).map (·.packageID)).Perm
          (pkgs.map (·.packageID)) := by
      rw [← List.map_append]
      apply List.Perm.map
      have hbase := List.filter_append_perm (fun p => p.destination = k) pkgs
      have hneg : (pkgs.filter (fun p => !(decide (p.destination = k))))
          = pkgs.filter (fun p => p.destination ≠ k) := by
        apply List.filter_congr
        intro p _
        by_cases h : p.destination = k <;> simp [h]
      rw [hneg] at hbase
      exact hbase
    exact ((List.Perm.append_left _ hperm2).trans hsplit)

theorem lastDest_mem (cur : String) :
    ∀ (ns : List RouteStop), lastDest cur ns = cur ∨ lastDest cur ns ∈ ns.map (·.destination) := by
  intro ns
  induction ns generalizing cur with
  | nil => exact Or.inl rfl
  | cons s ss ih =>
    rw [lastDest_cons]
    rcases ih s.destination with h | h
    · exact Or.inr (by rw [h]; exact List.mem_cons_self _ _)
    · exact Or.inr (List.mem_cons_of_mem _ h)

theorem lastDest_mem_of_ne_nil :
    ∀ (ns : List RouteStop) (cur : String), ns ≠ [] →
      lastDest cur ns ∈ ns.map (·.destination) := by
  intro ns
  induction ns with
  | nil => intro cur h; exact absurd rfl h
  | cons s ss ih =>
    intro cur _
    rw [lastDest_cons]
    cases ss with
    | nil => simp [lastDest]
    | cons t ts =>
      have := ih s.destination (by simp)
      exact List.mem_cons_of_mem _ this

theorem destKeys_ne_nil {pkgs : List Package} (h : pkgs ≠ []) : destKeys pkgs ≠ [] := by
  cases pkgs with
  | nil => exact absurd rfl h
  | cons p ps =>
    show dedupFirstAux [] (p.destination :: ps.map (·.destination)) ≠ []
    rw [dedupFirstAux]
    simp

theorem greedyStops_pkgids_flatten_perm {dist : String → Option DistanceResult}
    {pkgs : List Package} {cur : String} {time : Int} {ns : List RouteStop} {dS mS : Int}
    (hg : GreedyStops dist (byDestination pkgs) cur time (destKeys pkgs) ns dS mS) :
    ((ns.map (·.packageIDs)).flatten).Perm (pkgs.map (·.packageID)) := by
  have hmap : ns.map (·.packageIDs) = (ns.map (·.destination)).map (byDestination pkgs) := by
    rw [List.map_map]
    exact List.map_congr_left (greedyStops_pkgids hg)
  rw [hmap]
  have hflat : ((ns.map (·.destination)).map (byDestination pkgs)).flatten
      = (ns.map (·.destination)).flatMap (byDestination pkgs) := by
    rw [List.flatMap_def]
  rw [hflat]
  have hperm := greedyStops_dests_perm hg
  exact (List.Perm.flatMap_right _ hperm).trans
    (flatMap_byDestination_perm (destKeys pkgs) pkgs (destKeys_nodup pkgs)
      (fun p hp => mem_destKeys.mpr (List.mem_map_of_mem _ hp)))

theorem nearestNeighborRoute_spec (truck : Truck) (departAt : Int)
    (dist : String → Option DistanceResult) (ret : Bool)
    (hstart : truck.startLocation ≠ "")
    (hdests : ∀ p ∈ truck.packages, p.destination ≠ "")
    (hcov : ∀ x ∈ truck.startLocation :: destKeys truck.packages,
      ∀ y ∈ truck.startLocation :: destKeys truck.packages, x ≠ y →
      (dist (distKey x y)).isSome = true)
    (hcovself : truck.startLocation ∈ destKeys truck.packages →
      (dist (distKey truck.startLocation truck.startLocation)).isSome = true)
    (hbound : ∀ x ∈ truck.startLocation :: destKeys truck.packages,
      ∀ y ∈ truck.startLocation :: destKeys truck.packages,
      durOf dist x y ≤ maxInt64) :
    ∃ plan dS mS,
      NearestNeighborRoute truck departAt dist ret = .ok plan ∧
      GreedyStops dist (byDestination truck.packages) truck.startLocation departAt
        (destKeys truck.packages) plan.stops dS mS ∧
      plan.truckID = truck.truckID ∧ plan.departAt = departAt ∧
      (plan.stops.map (·.destination)).Perm (destKeys truck.packages) ∧
      ((plan.stops.map (·.packageIDs)).flatten).Perm (truck.packages.map (·.packageID)) ∧
      plan.totalDurationSeconds = dS + (if ret = true ∧ truck.packages ≠ [] then
        durOf dist (lastDest truck.startLocation plan.stops) truck.startLocation else 0) ∧
      plan.totalDistanceMeters = mS + (if ret = true ∧ truck.packages ≠ [] then
        metersOf dist (lastDest truck.startLocation plan.stops) truck.startLocation else 0) := by
  by_cases hpkgnil : truck.packages = []
  · -- no assigned packages: empty plan with zero totals
    have hkeysnil : destKeys truck.packages = [] := by rw [hpkgnil]; rfl
    refine ⟨⟨truck.truckID, departAt, [], 0, 0⟩, 0, 0, ?_, ?_, rfl, rfl, ?_, ?_, ?_, ?_⟩
    · rw [NearestNeighborRoute, NearestNeighborRouteOrd]
      simp [hstart, hpkgnil]
    · rw [hkeysnil]
      exact GreedyStops.nil _ _
    · rw [hkeysnil]
      simp
    · rw [hpkgnil]
      exact List.Perm.refl _
    · simp [hpkgnil]
    · simp [hpkgnil]
  · -- at least one package: run the loop lemma over the location universe
    have hpkgne : truck.packages ≠ [] := hpkgnil
    have hkeyne : ∀ d ∈ destKeys truck.packages, d ≠ "" := by
      intro d hd
      rcases List.mem_map.mp (mem_destKeys.mp hd) with ⟨p, hp, hpd⟩
      exact hpd ▸ hdests p hp
    obtain ⟨ns, dS, mS, hg, heq⟩ :=
      @routeLoop_greedy dist (byDestination truck.packages) _ hcov
        (destKeys truck.packages).length 0 (destKeys truck.packages) truck.startLocation
        departAt 0 0 [] (le_refl _) (destKeys_nodup _) hkeyne
        (fun d hd => List.mem_cons_of_mem _ hd) (List.mem_cons_self _ _)
        (by
          by_cases hin : truck.startLocation ∈ destKeys truck.packages
          · exact Or.inr (hcovself hin)
          · exact Or.inl hin)
        hbound
    simp only [List.nil_append, zero_add] at heq
    have hlast : lastDest truck.startLocation ns ∈
        truck.startLocation :: destKeys truck.packages := by
      rcases lastDest_mem truck.startLocation ns with h | h
      · rw [h]; exact List.mem_cons_self _ _
      · exact List.mem_cons_of_mem _ ((greedyStops_dests_perm hg).mem_iff.mp h)
    have hpkgE : truck.packages.isEmpty = false := by
      cases htp : truck.packages with
      | nil => exact absurd htp hpkgnil
      | cons a b => rfl
    cases ret with
    | false =>
      refine ⟨⟨truck.truckID, departAt, ns, dS, mS⟩, dS, mS, ?_, hg, rfl, rfl,
        greedyStops_dests_perm hg, greedyStops_pkgids_flatten_perm hg, ?_, ?_⟩
      · rw [NearestNeighborRoute, NearestNeighborRouteOrd]
        rw [if_neg hstart]
        simp only [hpkgE, Bool.false_eq_true, if_false]
        rw [heq]
      · simp
      · simp
    | true =>
      have hback : (dist (distKey (lastDest truck.startLocation ns)
          truck.startLocation)).isSome = true := by
        by_cases hls : lastDest truck.startLocation ns = truck.startLocation
        · rw [hls]
          apply hcovself
          have hnsne : ns ≠ [] := by
            intro h
            rw [h] at hg
            have := (greedyStops_dests_perm hg).symm.eq_nil
            exact destKeys_ne_nil hpkgne (by simpa using this)
          have hmeml := lastDest_mem_of_ne_nil ns truck.startLocation hnsne
          rw [hls] at hmeml
          exact (greedyStops_dests_perm hg).mem_iff.mp hmeml
        · exact hcov _ hlast _ (List.mem_cons_self _ _) hls
      rcases Option.isSome_iff_exists.mp hback with ⟨back, hbackeq⟩
      refine ⟨⟨truck.truckID, departAt, ns, dS + back.durationSeconds,
          mS + back.distanceMeters⟩, dS, mS, ?_, hg, rfl, rfl,
        greedyStops_dests_perm hg, greedyStops_pkgids_flatten_perm hg, ?_, ?_⟩
      · rw [NearestNeighborRoute, NearestNeighborRouteOrd]
        rw [if_neg hstart]
        simp only [hpkgE, Bool.false_eq_true, if_false]
        rw [heq]
        simp only [hbackeq]
        simp
      · have : durOf dist (lastDest truck.startLocation ns) truck.startLocation
            = back.durationSeconds := by
          rw [durOf, hbackeq]; rfl
        simp [hpkgne, this]
      · have : metersOf dist (lastDest truck.startLocation ns) truck.startLocation
            = back.distanceMeters := by
          rw [metersOf, hbackeq]; rfl
        simp [hpkgne, this]

theorem routeLoop_no_ok_of_empty_mem {dist : String → Option DistanceResult}
    {byDest : String → List Int} {perm : Nat → List String → List String}
    (hperm : ∀ k l, (perm k l).Perm l) :
    ∀ (fuel k : Nat) (remaining : List String) (cur : String) (time totDur totDist : Int)
      (stops : List RouteStop) (out : LoopOut), "" ∈ remaining →
      routeLoop dist byDest perm fuel k remaining cur time totDur totDist stops ≠ .ok out := by
  intro fuel
  induction fuel with
  | zero =>
    intro k remaining cur time totDur totDist stops out hmem
    cases remaining with
    | nil => cases hmem
    | cons r rs => simp [routeLoop]
  | succ f ih =>
    intro k remaining cur time totDur totDist stops out hmem
    cases remaining with
    | nil => cases hmem
    | cons r rs =>
      rw [routeLoop]
      simp only [List.isEmpty_cons, Bool.false_eq_true, if_false]
      cases hf : (perm k (r :: rs)).find? (fun d => (dist (distKey cur d)).isNone) with
      | some d => simp
      | none =>
          simp only []
          by_cases hb : (selectBest (fun d => durOf dist cur d) (perm k (r :: rs))).1 = ""
          · rw [if_pos hb]; simp
          · rw [if_neg hb]
            apply ih
            rw [List.mem_erase_of_ne (fun h => hb h.symm)]
            exact (hperm k (r :: rs)).mem_iff.mpr hmem

theorem routeLoop_perm_ok_iff {dist : String → Option DistanceResult}
    {byDest : String → List Int} {perm₁ perm₂ : Nat → List String → List String}
    (hperm₁ : ∀ k l, (perm₁ k l).Perm l) (hperm₂ : ∀ k l, (perm₂ k l).Perm l) :
    ∀ (fuel k₁ k₂ : Nat) (r₁ r₂ : List String) (cur : String) (time totDur totDist : Int)
      (stops : List RouteStop), r₁.Perm r₂ → r₁.Nodup → "" ∉ r₁ →
      ∀ out, routeLoop dist byDest perm₁ fuel k₁ r₁ cur time totDur totDist stops = .ok out ↔
        routeLoop dist byDest perm₂ fuel k₂ r₂ cur time totDur totDist stops = .ok out := by
  intro fuel
  induction fuel with
  | zero =>
    intro k₁ k₂ r₁ r₂ cur time totDur totDist stops hp hnd hne out
    cases r₁ with
    | nil =>
      rw [hp.symm.eq_nil]
      exact Iff.rfl
    | cons a as =>
      cases r₂ with
      | nil => exact absurd hp.eq_nil (by simp)
      | cons b bs => simp [routeLoop]
  | succ f ih =>
    intro k₁ k₂ r₁ r₂ cur time totDur totDist stops hp hnd hne out
    cases r₁ with
    | nil =>
      rw [hp.symm.eq_nil]
      simp [routeLoop]
    | cons a as =>
      cases r₂ with
      | nil => exact absurd hp.eq_nil (by simp)
      | cons b bs =>
        rw [routeLoop, routeLoop]
        simp only [List.isEmpty_cons, Bool.false_eq_true, if_false]
        have hp₁ : (perm₁ k₁ (a :: as)).Perm (b :: bs) := (hperm₁ k₁ _).trans hp
        have hp₂ : (perm₂ k₂ (b :: bs)).Perm (b :: bs) := hperm₂ k₂ _
        have hpp : (perm₁ k₁ (a :: as)).Perm (perm₂ k₂ (b :: bs)) := hp₁.trans hp₂.symm
        have hnd₁ : (perm₁ k₁ (a :: as)).Nodup := ((hperm₁ k₁ _).nodup_iff).mpr hnd
        have hne₁ : "" ∉ perm₁ k₁ (a :: as) := fun h => hne ((hperm₁ k₁ _).mem_iff.mp h)
        cases hf₁ : (perm₁ k₁ (a :: as)).find? (fun d => (dist (distKey cur d)).isNone) with
        | some d =>
          cases hf₂ : (perm₂ k₂ (b :: bs)).find? (fun d => (dist (distKey cur d)).isNone) with
          | some d' => simp
          | none =>
            exfalso
            have hd := List.mem_of_find?_eq_some hf₁
            have hpr := List.find?_some hf₁
            have := List.find?_eq_none.mp hf₂ d (hpp.mem_iff.mp hd)
            exact this hpr
        | none =>
          cases hf₂ : (perm₂ k₂ (b :: bs)).find? (fun d => (dist (distKey cur d)).isNone) with
          | some d' =>
            exfalso
            have hd := List.mem_of_find?_eq_some hf₂
            have hpr := List.find?_some hf₂
            have := List.find?_eq_none.mp hf₁ d' (hpp.mem_iff.mpr hd)
            exact this hpr
          | none =>
            simp only []
            have hsel : selectBest (fun d => durOf dist cur d) (perm₁ k₁ (a :: as))
                = selectBest (fun d => durOf dist cur d) (perm₂ k₂ (b :: bs)) :=
              selectBest_perm hpp hne₁ hnd₁
            rw [← hsel]
            by_cases hb : (selectBest (fun d => durOf dist cur d) (perm₁ k₁ (a :: as))).1 = ""
            · rw [if_pos hb, if_pos hb]
            · rw [if_neg hb, if_neg hb]
              apply ih
              · exact hpp.erase _
              · exact hnd₁.erase _
              · intro h
                exact hne₁ (List.mem_of_mem_erase h)

/-! ## Claim C1 -/

/-- C1 counterexample: a package whose destination is the empty string defeats
the empty-string sentinel of the selection loop — `NearestNeighborRoute` fails
with "failed to select next destination" even though the distance map has an
entry for the needed pair, instead of emitting a stop for that destination. -/
theorem nearestNeighborRoute_empty_destination_rejected :
    NearestNeighborRoute ⟨1, 1, "H", [⟨1, ""⟩]⟩ 0
      (fun k => if k = "H|" then some ⟨5, 5⟩ else none) false
      = .error .selectFailed := by
  decide

/-- C1 (amended: destinations must be non-empty strings, which the empty-string
sentinel of the selection loop requires; the `≤ maxInt64` bounds state that the
durations are Go-int representable): for every truck with a non-empty start
location whose packages have non-empty destinations and every distance map
covering every needed pair, `NearestNeighborRoute` succeeds; its stop sequence
repeatedly chooses the unvisited destination with minimal travel duration
(ties: lexicographically smallest string), each stop's arrival time advances
by the chosen leg and carries all package ids of that destination
(`GreedyStops`), there is exactly one stop per destination, every package id
appears in exactly one stop, and the totals are the sums of the chosen legs
plus the return leg exactly when `returnToStart` is set (and a leg was
driven).  In particular, on the section 8 worked example from HUB the stop
order is A, C, B with arrival times 300/510/780, total duration 780 s and
total distance 2600 m. -/
theorem nearestNeighborRoute_greedy_correct :
    (∀ (truck : Truck) (departAt : Int) (dist : String → Option DistanceResult) (ret : Bool),
      truck.startLocation ≠ "" →
      (∀ p ∈ truck.packages, p.destination ≠ "") →
      (∀ x ∈ truck.startLocation :: destKeys truck.packages,
        ∀ y ∈ truck.startLocation :: destKeys truck.packages, x ≠ y →
        (dist (distKey x y)).isSome = true) →
      (truck.startLocation ∈ destKeys truck.packages →
        (dist (distKey truck.startLocation truck.startLocation)).isSome = true) →
      (∀ x ∈ truck.startLocation :: destKeys truck.packages,
        ∀ y ∈ truck.startLocation :: destKeys truck.packages,
        durOf dist x y ≤ maxInt64) →
      ∃ plan dS mS,
        NearestNeighborRoute truck departAt dist ret = .ok plan ∧
        GreedyStops dist (byDestination truck.packages) truck.startLocation departAt
          (destKeys truck.packages) plan.stops dS mS ∧
        plan.truckID = truck.truckID ∧ plan.departAt = departAt ∧
        (plan.stops.map (·.destination)).Perm (destKeys truck.packages) ∧
        ((plan.stops.map (·.packageIDs)).flatten).Perm (truck.packages.map (·.packageID)) ∧
        plan.totalDurationSeconds = dS + (if ret = true ∧ truck.packages ≠ [] then
          durOf dist (lastDest truck.startLocation plan.stops) truck.startLocation else 0) ∧
        plan.totalDistanceMeters = mS + (if ret = true ∧ truck.packages ≠ [] then
          metersOf dist (lastDest truck.startLocation plan.stops) truck.startLocation else 0)) ∧
    NearestNeighborRoute exampleTruck 0 exampleDistances false
      = .ok ⟨1, 0, [⟨"A", 300, [1]⟩, ⟨"C", 510, [3]⟩, ⟨"B", 780, [2]⟩], 780, 2600⟩ :=
  ⟨fun truck departAt dist ret h1 h2 h3 h4 h5 =>
    nearestNeighborRoute_spec truck departAt dist ret h1 h2 h3 h4 h5, by decide⟩

/-- Witness for C1 at the worked example with the return leg enabled. -/
theorem nearestNeighborRoute_greedy_correct_witness :
    ∃ plan dS mS,
      NearestNeighborRoute exampleTruck 0 exampleDistances true = .ok plan ∧
      GreedyStops exampleDistances (byDestination exampleTruck.packages)
        exampleTruck.startLocation 0 (destKeys exampleTruck.packages) plan.stops dS mS ∧
      plan.truckID = exampleTruck.truckID ∧ plan.departAt = 0 ∧
      (plan.stops.map (·.destination)).Perm (destKeys exampleTruck.packages) ∧
      ((plan.stops.map (·.packageIDs)).flatten).Perm
        (exampleTruck.packages.map (·.packageID)) ∧
      plan.totalDurationSeconds = dS + (if (true : Bool) = true ∧ exampleTruck.packages ≠ [] then
        durOf exampleDistances (lastDest exampleTruck.startLocation plan.stops)
          exampleTruck.startLocation else 0) ∧
      plan.totalDistanceMeters = mS + (if (true : Bool) = true ∧ exampleTruck.packages ≠ [] then
        metersOf exampleDistances (lastDest exampleTruck.startLocation plan.stops)
          exampleTruck.startLocation else 0) :=
  nearestNeighborRoute_greedy_correct.1 exampleTruck 0 exampleDistances true
    (by decide) (by decide) (by decide) (by decide) (by decide)

/-! ## Claim C3 -/

/-- C3: `NearestNeighborRoute` is deterministic and insensitive to the
iteration order of its internal `byDestination` and `remainingDestinations`
maps: two runs over the same truck, departure time, return flag and
distance-map contents — one listing the destination set as `l₁` and iterating
the remaining set through `perm₁`, the other as `l₂`/`perm₂`, both arbitrary
permutations — succeed or fail together, and when they succeed they produce
the identical `RoutePlan` (stop sequence, arrival times, package-id lists and
totals). -/
theorem nearestNeighborRoute_order_insensitive :
    ∀ (truck : Truck) (departAt : Int) (dist : String → Option DistanceResult) (ret : Bool)
      (l₁ l₂ : List String) (perm₁ perm₂ : Nat → List String → List String),
      l₁.Perm (destKeys truck.packages) → l₂.Perm (destKeys truck.packages) →
      (∀ k l, (perm₁ k l).Perm l) → (∀ k l, (perm₂ k l).Perm l) →
      exceptOk (NearestNeighborRouteOrd truck departAt dist ret l₁ perm₁)
        = exceptOk (NearestNeighborRouteOrd truck departAt dist ret l₂ perm₂) ∧
      ∀ p q, NearestNeighborRouteOrd truck departAt dist ret l₁ perm₁ = .ok p →
        NearestNeighborRouteOrd truck departAt dist ret l₂ perm₂ = .ok q → p = q := by
  intro truck departAt dist ret l₁ l₂ perm₁ perm₂ hl₁ hl₂ hp₁ hp₂
  by_cases hs : truck.startLocation = ""
  · constructor
    · rw [NearestNeighborRouteOrd, NearestNeighborRouteOrd]
      simp [hs]
    · intro p q hp hq
      rw [NearestNeighborRouteOrd] at hp
      simp [hs] at hp
  · by_cases hpk : truck.packages.isEmpty
    · constructor
      · rw [NearestNeighborRouteOrd, NearestNeighborRouteOrd]
        simp [hs, hpk]
      · intro p q hp hq
        rw [NearestNeighborRouteOrd] at hp hq
        simp [hs, hpk] at hp hq
        rw [← hp, ← hq]
    · have hpkE : truck.packages.isEmpty = false := by simpa using hpk
      have hlen : l₁.length = l₂.length := (hl₁.trans hl₂.symm).length_eq
      have hpp : l₁.Perm l₂ := hl₁.trans hl₂.symm
      by_cases hem : "" ∈ destKeys truck.packages
      · -- an empty-string destination always ends in an error, in any order
        have hne₁ : "" ∈ l₁ := hl₁.mem_iff.mpr hem
        have hne₂ : "" ∈ l₂ := hl₂.mem_iff.mpr hem
        have hord₁ : ∀ out, NearestNeighborRouteOrd truck departAt dist ret l₁ perm₁
            ≠ .ok out := by
          intro out hok
          rw [NearestNeighborRouteOrd, if_neg hs] at hok
          simp only [hpkE, Bool.false_eq_true, if_false] at hok
          cases hres : routeLoop dist (byDestination truck.packages) perm₁ l₁.length 0 l₁
              truck.startLocation departAt 0 0 [] with
          | error e => rw [hres] at hok; cases hok
          | ok o =>
            exact routeLoop_no_ok_of_empty_mem hp₁ l₁.length 0 l₁ truck.startLocation
              departAt 0 0 [] o hne₁ hres
        have hord₂ : ∀ out, NearestNeighborRouteOrd truck departAt dist ret l₂ perm₂
            ≠ .ok out := by
          intro out hok
          rw [NearestNeighborRouteOrd, if_neg hs] at hok
          simp only [hpkE, Bool.false_eq_true, if_false] at hok
          cases hres : routeLoop dist (byDestination truck.packages) perm₂ l₂.length 0 l₂
              truck.startLocation departAt 0 0 [] with
          | error e => rw [hres] at hok; cases hok
          | ok o =>
            exact routeLoop_no_ok_of_empty_mem hp₂ l₂.length 0 l₂ truck.startLocation
              departAt 0 0 [] o hne₂ hres
        constructor
        · cases h₁ : NearestNeighborRouteOrd truck departAt dist ret l₁ perm₁ with
          | error e =>
            cases h₂ : NearestNeighborRouteOrd truck departAt dist ret l₂ perm₂ with
            | error e' => rfl
            | ok q => exact absurd h₂ (hord₂ q)
          | ok p => exact absurd h₁ (hord₁ p)
        · intro p q hp hq
          exact absurd hp (hord₁ p)
      · -- no empty-string destination: the loops agree pointwise
        have hnd₁ : l₁.Nodup := hl₁.nodup_iff.mpr (destKeys_nodup _)
        have hneq : "" ∉ l₁ := fun h => hem (hl₁.mem_iff.mp h)
        have hiff := @routeLoop_perm_ok_iff dist (byDestination truck.packages) perm₁ perm₂
          hp₁ hp₂ l₁.length 0 0 l₁ l₂ truck.startLocation departAt 0 0 [] hpp hnd₁ hneq
        cases hres₁ : routeLoop dist (byDestination truck.packages) perm₁ l₁.length 0 l₁
            truck.startLocation departAt 0 0 [] with
        | ok out₁ =>
          cases hres₂ : routeLoop dist (byDestination truck.packages) perm₂ l₁.length 0 l₂
              truck.startLocation departAt 0 0 [] with
          | ok out₂ =>
            have hout : out₁ = out₂ := by
              have h := (hiff out₁).mp hres₁
              rw [h] at hres₂
              exact (Except.ok.inj hres₂)
            subst hout
            have hord : NearestNeighborRouteOrd truck departAt dist ret l₁ perm₁
                = NearestNeighborRouteOrd truck departAt dist ret l₂ perm₂ := by
              rw [NearestNeighborRouteOrd, NearestNeighborRouteOrd, if_neg hs, if_neg hs]
              simp only [hpkE, Bool.false_eq_true, if_false]
              rw [← hlen, hres₁, hres₂]
            refine ⟨by rw [hord], ?_⟩
            intro p q hp hq
            rw [hord] at hp
            rw [hp] at hq
            exact Except.ok.inj hq
          | error e₂ =>
            exfalso
            have h := (hiff out₁).mp hres₁
            rw [h] at hres₂
            cases hres₂
        | error e₁ =>
          cases hres₂ : routeLoop dist (byDestination truck.packages) perm₂ l₁.length 0 l₂
              truck.startLocation departAt 0 0 [] with
          | ok out₂ =>
            exfalso
            have h := (hiff out₂).mpr hres₂
            rw [h] at hres₁
            cases hres₁
          | error e₂ =>
            have hord₁ : NearestNeighborRouteOrd truck departAt dist ret l₁ perm₁
                = .error e₁ := by
              rw [NearestNeighborRouteOrd, if_neg hs]
              simp only [hpkE, Bool.false_eq_true, if_false]
              rw [hres₁]
            have hord₂ : NearestNeighborRouteOrd truck departAt dist ret l₂ perm₂
                = .error e₂ := by
              rw [NearestNeighborRouteOrd, if_neg hs]
              simp only [hpkE, Bool.false_eq_true, if_false]
              rw [← hlen, hres₂]
            refine ⟨by rw [hord₁, hord₂]; rfl, ?_⟩
            intro p q hp hq
            rw [hord₁] at hp
            cases hp

/-- Witness for C3: the worked example run with the canonical order against a
run listing the destinations reversed and re-reversing the remaining set at
every iteration. -/
theorem nearestNeighborRoute_order_insensitive_witness :
    exceptOk (NearestNeighborRouteOrd exampleTruck 0 exampleDistances false
        (destKeys exampleTruck.packages) (fun _ l => l))
      = exceptOk (NearestNeighborRouteOrd exampleTruck 0 exampleDistances false
        ((destKeys exampleTruck.packages).reverse) (fun _ l => l.reverse)) ∧
    ∀ p q, NearestNeighborRouteOrd exampleTruck 0 exampleDistances false
        (destKeys exampleTruck.packages) (fun _ l => l) = .ok p →
      NearestNeighborRouteOrd exampleTruck 0 exampleDistances false
        ((destKeys exampleTruck.packages).reverse) (fun _ l => l.reverse) = .ok q → p = q :=
  nearestNeighborRoute_order_insensitive exampleTruck 0 exampleDistances false
    (destKeys exampleTruck.packages) ((destKeys exampleTruck.packages).reverse)
    (fun _ l => l) (fun _ l => l.reverse)
    (List.Perm.refl _) (List.reverse_perm _)
    (fun _ l => List.Perm.refl l) (fun _ l => List.reverse_perm l)

/-! ## Claim C9 support: PlanRoute with the mock provider against
NearestNeighborRoute -/

theorem planRouteResults_ok_lookup {m : String → Option DistanceResult} {cur : String} :
    ∀ {ds : List String} {rs : List (String × DistanceResult)},
      planRouteResults m cur ds = .ok rs →
      ∀ d ∈ ds, rs.lookup d = m (distKey cur d) := by
  intro ds
  induction ds with
  | nil =>
    intro rs h d hd
    cases hd
  | cons d₀ ds ih =>
    intro rs h d hd
    rw [planRouteResults] at h
    cases hm : m (distKey cur d₀) with
    | none => rw [hm] at h; cases h
    | some r =>
      rw [hm] at h
      cases hrec : planRouteResults m cur ds with
      | error e => rw [hrec] at h; cases h
      | ok rest =>
        rw [hrec] at h
        cases h
        by_cases hdd : d = d₀
        · subst hdd
          simp [List.lookup, hm]
        · rcases List.mem_cons.mp hd with h' | h'
          · exact absurd h' hdd
          · simp only [List.lookup]
            have hbeq : (d == d₀) = false := beq_eq_false_iff_ne.mpr hdd
            rw [hbeq]
            exact ih hrec d h'

theorem planRouteResults_ok_of_all {m : String → Option DistanceResult} {cur : String} :
    ∀ (ds : List String), (∀ d ∈ ds, (m (distKey cur d)).isNone = false) →
      ∃ rs, planRouteResults m cur ds = .ok rs := by
  intro ds
  induction ds with
  | nil => intro _; exact ⟨[], rfl⟩
  | cons d₀ ds ih =>
    intro hall
    have h₀ := hall d₀ (List.mem_cons_self _ _)
    cases hm : m (distKey cur d₀) with
    | none => rw [hm] at h₀; cases h₀
    | some r =>
      obtain ⟨rest, hrest⟩ := ih (fun d hd => hall d (List.mem_cons_of_mem _ hd))
      exact ⟨(d₀, r) :: rest, by rw [planRouteResults, hm, hrest]⟩

theorem planRouteResults_error_of_missing {m : String → Option DistanceResult} {cur : String} :
    ∀ (ds : List String) (d : String), d ∈ ds → m (distKey cur d) = none →
      ∃ e, planRouteResults m cur ds = .error e := by
  intro ds
  induction ds with
  | nil => intro d hd; cases hd
  | cons d₀ ds ih =>
    intro d hd hnone
    cases hm : m (distKey cur d₀) with
    | none => exact ⟨.getDistanceFailed cur d₀, by rw [planRouteResults, hm]⟩
    | some r =>
      rcases List.mem_cons.mp hd with h' | h'
      · rw [h', hm] at hnone; cases hnone
      · obtain ⟨e, he⟩ := ih d h' hnone
        exact ⟨e, by rw [planRouteResults, hm, he]⟩

theorem planLoop_nnLoop_ok_iff {m : String → Option DistanceResult}
    {byDest : String → List Int} :
    ∀ (fuel k : Nat) (remaining : List String) (cur : String) (time totDur totDist : Int)
      (stops : List RouteStop) (out : LoopOut),
      planRouteLoop m byDest (fun _ l => l) fuel k remaining cur time totDur totDist stops
        = .ok out ↔
      routeLoop m byDest (fun _ l => l) fuel k remaining cur time totDur totDist stops
        = .ok out := by
  intro fuel
  induction fuel with
  | zero => intro k remaining cur time totDur totDist stops out; exact Iff.rfl
  | succ f ih =>
    intro k remaining cur time totDur totDist stops out
    cases remaining with
    | nil => exact Iff.rfl
    | cons r rs =>
      rw [planRouteLoop, routeLoop]
      simp only [List.isEmpty_cons, Bool.false_eq_true, if_false]
      cases hf : (r :: rs).find? (fun d => (m (distKey cur d)).isNone) with
      | some d =>
        have hd := List.mem_of_find?_eq_some hf
        have hp : (m (distKey cur d)).isNone = true :=
          @List.find?_some _ (fun d => (m (distKey cur d)).isNone) d (r :: rs) hf
        have hnone : m (distKey cur d) = none := Option.isNone_iff_eq_none.mp hp
        obtain ⟨e, he⟩ := planRouteResults_error_of_missing (r :: rs) d hd hnone
        simp only [he]
        constructor
        · intro h; cases h
        · intro h; cases h
      | none =>
        have hall : ∀ d ∈ (r :: rs), (m (distKey cur d)).isNone = false := by
          intro d hd
          have hnot : ¬ ((m (distKey cur d)).isNone = true) := List.find?_eq_none.mp hf d hd
          rw [Bool.not_eq_true] at hnot
          exact hnot
        obtain ⟨rs', hok⟩ := planRouteResults_ok_of_all (r :: rs) hall
        simp only [hok]
        have hlk := planRouteResults_ok_lookup hok
        have hfind2 : (r :: rs).find? (fun d => ((rs'.lookup d)).isNone) = none := by
          rw [List.find?_eq_none]
          intro x hx
          show ¬ ((rs'.lookup x).isNone = true)
          rw [hlk x hx, hall x hx]
          simp
        rw [hfind2]
        simp only []
        have hsel : selectBest (fun d => ((rs'.lookup d).getD ⟨0, 0⟩).durationSeconds) (r :: rs)
            = selectBest (fun d => durOf m cur d) (r :: rs) := by
          apply selectBest_congr
          intro d hd
          rw [hlk d hd]
          rfl
        rw [hsel]
        by_cases hb : (selectBest (fun d => durOf m cur d) (r :: rs)).1 = ""
        · rw [if_pos hb, if_pos hb]
        · rw [if_neg hb, if_neg hb]
          have hbmem : (selectBest (fun d => durOf m cur d) (r :: rs)).1 ∈ (r :: rs) := by
            rcases selectBest_fst_eq_empty_or_mem (fun d => durOf m cur d) (r :: rs)
              ("", maxInt64) with h | h
            · exact absurd h hb
            · exact h
          have hbres : (rs'.lookup (selectBest (fun d => durOf m cur d) (r :: rs)).1).getD ⟨0, 0⟩
              = (m (distKey cur (selectBest (fun d => durOf m cur d) (r :: rs)).1)).getD ⟨0, 0⟩ := by
            rw [hlk _ hbmem]
          rw [hbres]
          exact ih (k + 1) _ _ _ _ _ _ out

/-! ## Claim C9 -/

/-- C9: with a `MockDistanceProvider` built from the map `m` — so every
provider query `GetDistance(o, d)` answers exactly `m[o+"|"+d]`, failing when
the pair is absent — `PlanRoute` (which queries the provider at each step) and
`NearestNeighborRoute` (which reads the precomputed map) are equivalent: they
return identical `RoutePlan`s, and one returns an error if and only if the
other does. -/
theorem planRoute_equiv_nearestNeighbor :
    ∀ (truck : Truck) (departAt : Int) (m : String → Option DistanceResult) (ret : Bool),
      exceptOk (PlanRoute truck.truckID departAt truck.startLocation truck.packages m ret)
        = exceptOk (NearestNeighborRoute truck departAt m ret) ∧
      ∀ p, PlanRoute truck.truckID departAt truck.startLocation truck.packages m ret = .ok p ↔
        NearestNeighborRoute truck departAt m ret = .ok p := by
  intro truck departAt m ret
  by_cases hs : truck.startLocation = ""
  · constructor
    · rw [PlanRoute, NearestNeighborRoute, NearestNeighborRouteOrd]
      simp [hs]
    · intro p
      rw [PlanRoute, NearestNeighborRoute, NearestNeighborRouteOrd]
      simp [hs]
  · by_cases hpk : truck.packages.isEmpty
    · constructor
      · rw [PlanRoute, NearestNeighborRoute, NearestNeighborRouteOrd]
        simp [hs, hpk]
      · intro p
        rw [PlanRoute, NearestNeighborRoute, NearestNeighborRouteOrd]
        simp [hs, hpk]
    · have hpkE : truck.packages.isEmpty = false := by simpa using hpk
      cases hres₁ : planRouteLoop m (byDestination truck.packages) (fun _ l => l)
          (destKeys truck.packages).length 0 (destKeys truck.packages) truck.startLocation
          departAt 0 0 [] with
      | ok out₁ =>
        have hres₂ : routeLoop m (byDestination truck.packages) (fun _ l => l)
            (destKeys truck.packages).length 0 (destKeys truck.packages) truck.startLocation
            departAt 0 0 [] = .ok out₁ :=
          (planLoop_nnLoop_ok_iff _ _ _ _ _ _ _ _ _).mp hres₁
        cases ret with
        | false =>
          have hplan : PlanRoute truck.truckID departAt truck.startLocation truck.packages
              m false = .ok ⟨truck.truckID, departAt, out₁.stops,
                out₁.totalDurationSeconds, out₁.totalDistanceMeters⟩ := by
            rw [PlanRoute, if_neg hs]
            simp only [hpkE, Bool.false_eq_true, if_false, hres₁]
          have hnn : NearestNeighborRoute truck departAt m false
              = .ok ⟨truck.truckID, departAt, out₁.stops,
                out₁.totalDurationSeconds, out₁.totalDistanceMeters⟩ := by
            rw [NearestNeighborRoute, NearestNeighborRouteOrd, if_neg hs]
            simp only [hpkE, Bool.false_eq_true, if_false, hres₂]
          rw [hplan, hnn]
          exact ⟨rfl, fun p => Iff.rfl⟩
        | true =>
          cases hb : m (distKey out₁.current truck.startLocation) with
          | none =>
            have hplan : PlanRoute truck.truckID departAt truck.startLocation truck.packages
                m true = .error (.getDistanceFailed out₁.current truck.startLocation) := by
              rw [PlanRoute, if_neg hs]
              simp only [hpkE, Bool.false_eq_true, if_false, hres₁, hb]
              simp
            have hnn : NearestNeighborRoute truck departAt m true
                = .error (.missingReturnLeg out₁.current truck.startLocation) := by
              rw [NearestNeighborRoute, NearestNeighborRouteOrd, if_neg hs]
              simp only [hpkE, Bool.false_eq_true, if_false, hres₂, hb]
              simp
            rw [hplan, hnn]
            exact ⟨rfl, fun p => ⟨fun h => by simp at h, fun h => by simp at h⟩⟩
          | some back =>
            have hplan : PlanRoute truck.truckID departAt truck.startLocation truck.packages
                m true = .ok ⟨truck.truckID, departAt, out₁.stops,
                  out₁.totalDurationSeconds + back.durationSeconds,
                  out₁.totalDistanceMeters + back.distanceMeters⟩ := by
              rw [PlanRoute, if_neg hs]
              simp only [hpkE, Bool.false_eq_true, if_false, hres₁, hb]
              simp
            have hnn : NearestNeighborRoute truck departAt m true
                = .ok ⟨truck.truckID, departAt, out₁.stops,
                  out₁.totalDurationSeconds + back.durationSeconds,
                  out₁.totalDistanceMeters + back.distanceMeters⟩ := by
              rw [NearestNeighborRoute, NearestNeighborRouteOrd, if_neg hs]
              simp only [hpkE, Bool.false_eq_true, if_false, hres₂, hb]
              simp
            rw [hplan, hnn]
            exact ⟨rfl, fun p => Iff.rfl⟩
      | error e₁ =>
        cases hres₂ : routeLoop m (byDestination truck.packages) (fun _ l => l)
            (destKeys truck.packages).length 0 (destKeys truck.packages) truck.startLocation
            departAt 0 0 [] with
        | ok out₂ =>
          exfalso
          have := (planLoop_nnLoop_ok_iff _ _ _ _ _ _ _ _ _).mpr hres₂
          rw [this] at hres₁
          cases hres₁
        | error e₂ =>
          have hplan : PlanRoute truck.truckID departAt truck.startLocation truck.packages
              m ret = .error e₁ := by
            rw [PlanRoute, if_neg hs]
            simp only [hpkE, Bool.false_eq_true, if_false, hres₁]
          have hnn : NearestNeighborRoute truck departAt m ret = .error e₂ := by
            rw [NearestNeighborRoute, NearestNeighborRouteOrd, if_neg hs]
            simp only [hpkE, Bool.false_eq_true, if_false, hres₂]
          rw [hplan, hnn]
          exact ⟨rfl, fun p => ⟨fun h => by simp at h, fun h => by simp at h⟩⟩

/-- Witness for C9: on the worked example the equivalence transports the
concrete `PlanRoute` evaluation to `NearestNeighborRoute`. -/
theorem planRoute_equiv_nearestNeighbor_witness :
    NearestNeighborRoute exampleTruck 0 exampleDistances false
      = .ok ⟨1, 0, [⟨"A", 300, [1]⟩, ⟨"C", 510, [3]⟩, ⟨"B", 780, [2]⟩], 780, 2600⟩ :=
  ((planRoute_equiv_nearestNeighbor exampleTruck 0 exampleDistances false).2 _).mp (by decide)

/-! ## Claim C8 support -/

theorem load_preserves_fields (t : Truck) (p : Package) :
    (t.load p).2.truckID = t.truckID ∧ (t.load p).2.capacity = t.capacity ∧
      (t.load p).2.startLocation = t.startLocation := by
  rw [Truck.load]
  by_cases h : (t.packages.length : Int) ≥ t.capacity
  · rw [if_pos h]
    exact ⟨rfl, rfl, rfl⟩
  · rw [if_neg h]
    exact ⟨rfl, rfl, rfl⟩

theorem loadCalls_le_capacity :
    ∀ (ps : List Package) (t : Truck), (t.packages.length : Int) ≤ t.capacity →
      ((t.loadCalls ps).packages.length : Int) ≤ t.capacity := by
  intro ps
  induction ps with
  | nil => intro t h; exact h
  | cons p ps ih =>
    intro t h
    show ((Truck.loadCalls (t.load p).2 ps).packages.length : Int) ≤ t.capacity
    have hcap : (t.load p).2.capacity = t.capacity := (load_preserves_fields t p).2.1
    rw [← hcap]
    apply ih
    rw [hcap, Truck.load]
    by_cases hfull : (t.packages.length : Int) ≥ t.capacity
    · rw [if_pos hfull]
      exact h
    · rw [if_neg hfull]
      push_neg at hfull
      simp only [List.length_append, List.length_cons, List.length_nil]
      push_cast
      omega

theorem loadBand_failure_fields :
    ∀ (ps : List Package) (t : Truck) (f : LoadFailure) (t' : Truck),
      loadBand t ps = (some f, t') → f.truckId = t.truckID ∧ f.capacity = t.capacity := by
  intro ps
  induction ps with
  | nil => intro t f t' h; cases h
  | cons p ps ih =>
    intro t f t' h
    rw [loadBand] at h
    rcases hload : t.load p with ⟨e, t₁⟩
    rw [hload] at h
    cases e with
    | some f₁ =>
      rw [Truck.load] at hload
      by_cases hfull : (t.packages.length : Int) ≥ t.capacity
      · rw [if_pos hfull] at hload
        cases h
        cases hload
        exact ⟨rfl, rfl⟩
      · rw [if_neg hfull] at hload
        cases hload
    | none =>
      have hfields := load_preserves_fields t p
      rw [hload] at hfields
      obtain ⟨hid, hcap, _⟩ := hfields
      obtain ⟨h1, h2⟩ := ih t₁ f t' h
      exact ⟨h1.trans hid, h2.trans hcap⟩

theorem assignGo_error_truck :
    ∀ (ts : List Truck) (pkgDest : String → List Package) (sorted : List String)
      (chunkSize ti : Nat) (tid cap : Int),
      assignGo pkgDest sorted chunkSize ti ts = .error (.capacityExceeded tid cap) →
      ∃ i, ∃ h : i < ts.length, tid = (ts.get ⟨i, h⟩).truckID ∧
        cap = (ts.get ⟨i, h⟩).capacity := by
  intro ts
  induction ts with
  | nil =>
    intro pkgDest sorted chunkSize ti tid cap h
    cases h
  | cons t ts ih =>
    intro pkgDest sorted chunkSize ti tid cap h
    rw [assignGo] at h
    by_cases hstart : ti * chunkSize ≥ sorted.length
    · rw [if_pos hstart] at h
      cases h
    · rw [if_neg hstart] at h
      simp only [] at h
      rcases hband : loadBand t
          ((((sorted.drop (ti * chunkSize)).take chunkSize)).flatMap pkgDest) with ⟨e, t₁⟩
      rw [hband] at h
      cases e with
      | some f =>
        cases h
        obtain ⟨h1, h2⟩ := loadBand_failure_fields _ t f t₁ hband
        exact ⟨0, by simp, h1, h2⟩
      | none =>
        cases hrec : assignGo pkgDest sorted chunkSize (ti + 1) ts with
        | error e' =>
          rw [hrec] at h
          cases h
          obtain ⟨i, hi, h1, h2⟩ := ih pkgDest sorted chunkSize (ti + 1) tid cap hrec
          exact ⟨i + 1, by simpa using Nat.succ_lt_succ hi, h1, h2⟩
        | ok ts₁ =>
          rw [hrec] at h
          cases h

/-! ## Claim C8 -/

/-- C8: `Truck.Load` refuses to load once the truck already holds
capacity-many or more packages, returning the capacity error carrying the
truck's id and leaving the loaded-package list (indeed the whole truck)
unchanged; consequently any sequence of `Load` calls keeps the count at or
below capacity whenever it starts there (a fresh truck with non-negative
capacity in particular); and when assignment aborts on overflow, the
`CapacityExceeded` error identifies a truck of the input fleet (id and
capacity of the truck that was full). -/
theorem truck_load_capacity_guard :
    (∀ (t : Truck) (p : Package), (t.packages.length : Int) ≥ t.capacity →
      t.load p = (some ⟨t.truckID, t.capacity⟩, t)) ∧
    (∀ (t : Truck) (ps : List Package), (t.packages.length : Int) ≤ t.capacity →
      ((t.loadCalls ps).packages.length : Int) ≤ t.capacity) ∧
    (∀ (trucks : List Truck) (pkgDest : String → List Package)
      (distances : String → Option DistanceResult) (destinations : List String)
      (tid cap : Int),
      AssignPackagesByDistance trucks pkgDest distances destinations
        = .error (.capacityExceeded tid cap) →
      ∃ i, ∃ h : i < trucks.length, tid = (trucks.get ⟨i, h⟩).truckID ∧
        cap = (trucks.get ⟨i, h⟩).capacity) := by
  refine ⟨?_, ?_, ?_⟩
  · intro t p h
    rw [Truck.load, if_pos h]
  · exact fun t ps h => loadCalls_le_capacity ps t h
  · intro trucks pkgDest distances destinations tid cap h
    rw [AssignPackagesByDistance] at h
    by_cases hne : trucks.isEmpty
    · rw [if_pos hne] at h
      cases h
    · rw [if_neg hne] at h
      exact assignGo_error_truck trucks pkgDest _ _ 0 tid cap h

/-- Witness for C8: a full truck rejects a load unchanged; a capacity-1 truck
never exceeds capacity under three loads; a zero-capacity truck aborts
assignment with its own id in the error. -/
theorem truck_load_capacity_guard_witness :
    Truck.load ⟨7, 1, "H", [⟨1, "A"⟩]⟩ ⟨2, "B"⟩ = (some ⟨7, 1⟩, ⟨7, 1, "H", [⟨1, "A"⟩]⟩) ∧
    ((Truck.loadCalls ⟨7, 1, "H", []⟩ [⟨1, "A"⟩, ⟨2, "B"⟩, ⟨3, "C"⟩]).packages.length : Int)
      ≤ (1 : Int) ∧
    ∃ i, ∃ h : i < [(⟨7, 0, "H", []⟩ : Truck)].length,
      (7 : Int) = ([(⟨7, 0, "H", []⟩ : Truck)].get ⟨i, h⟩).truckID ∧
      (0 : Int) = ([(⟨7, 0, "H", []⟩ : Truck)].get ⟨i, h⟩).capacity :=
  ⟨truck_load_capacity_guard.1 ⟨7, 1, "H", [⟨1, "A"⟩]⟩ ⟨2, "B"⟩ (by decide),
   truck_load_capacity_guard.2.1 ⟨7, 1, "H", []⟩ [⟨1, "A"⟩, ⟨2, "B"⟩, ⟨3, "C"⟩] (by decide),
   truck_load_capacity_guard.2.2 [⟨7, 0, "H", []⟩]
     (fun d => if d = "A" then [⟨1, "A"⟩] else []) (fun _ => none) ["A"] 7 0 (by decide)⟩

/-! ## Claim C2 support -/

theorem destLe_total (distances : String → Option DistanceResult) :
    ∀ a b, destLe distances a b ∨ destLe distances b a := by
  intro a b
  rcases lt_trichotomy ((distances a).getD ⟨0, 0⟩).distanceMeters
      ((distances b).getD ⟨0, 0⟩).distanceMeters with h | h | h
  · exact Or.inl (Or.inl h)
  · by_cases hab : a = b
    · exact Or.inl (Or.inr ⟨h, Or.inr hab⟩)
    · rcases goStrLt_total hab with hl | hl
      · exact Or.inl (Or.inr ⟨h, Or.inl hl⟩)
      · exact Or.inr (Or.inr ⟨h.symm, Or.inl hl⟩)
  · exact Or.inr (Or.inl h)

theorem destLe_trans (distances : String → Option DistanceResult) :
    ∀ a b c, destLe distances a b → destLe distances b c → destLe distances a c := by
  intro a b c hab hbc
  rcases hab with h1 | ⟨h1, h1'⟩
  · rcases hbc with h2 | ⟨h2, _⟩
    · exact Or.inl (by omega)
    · exact Or.inl (by omega)
  · rcases hbc with h2 | ⟨h2, h2'⟩
    · exact Or.inl (by omega)
    · refine Or.inr ⟨by omega, ?_⟩
      rcases h1' with h1' | h1'
      · rcases h2' with h2' | h2'
        · exact Or.inl (goStrLt_trans h1' h2')
        · exact Or.inl (h2' ▸ h1')
      · rcases h2' with h2' | h2'
        · exact Or.inl (h1' ▸ h2')
        · exact Or.inr (h1'.trans h2')

theorem loadBand_ok :
    ∀ (ps : List Package) (t t' : Truck), loadBand t ps = (none, t') →
      t' = { t with packages := t.packages ++ ps } := by
  intro ps
  induction ps with
  | nil =>
    intro t t' h
    rw [loadBand] at h
    cases h
    cases t
    simp
  | cons p ps ih =>
    intro t t' h
    rw [loadBand] at h
    rcases hload : t.load p with ⟨e, t₁⟩
    rw [hload] at h
    cases e with
    | some f => cases h
    | none =>
      rw [Truck.load] at hload
      by_cases hfull : (t.packages.length : Int) ≥ t.capacity
      · rw [if_pos hfull] at hload
        cases hload
      · rw [if_neg hfull] at hload
        cases hload
        have := ih _ _ h
        rw [this]
        simp

theorem assignGo_ok :
    ∀ (ts : List Truck) (pkgDest : String → List Package) (sorted : List String)
      (chunkSize ti : Nat) (ts' : List Truck),
      assignGo pkgDest sorted chunkSize ti ts = .ok ts' →
      ts'.length = ts.length ∧
      ∀ j (h : j < ts.length) (h' : j < ts'.length),
        ts'.get ⟨j, h'⟩ = { ts.get ⟨j, h⟩ with
          packages := (ts.get ⟨j, h⟩).packages ++
            (((sorted.drop ((ti + j) * chunkSize)).take chunkSize).flatMap pkgDest) } := by
  intro ts
  induction ts with
  | nil =>
    intro pkgDest sorted chunkSize ti ts' h
    cases h
    exact ⟨rfl, fun j h _ => absurd h (by simp)⟩
  | cons t ts ih =>
    intro pkgDest sorted chunkSize ti ts' h
    rw [assignGo] at h
    by_cases hstart : ti * chunkSize ≥ sorted.length
    · rw [if_pos hstart] at h
      cases h
      refine ⟨rfl, ?_⟩
      intro j hj hj'
      have hdrop : sorted.drop ((ti + j) * chunkSize) = [] := by
        apply List.drop_eq_nil_of_le
        calc sorted.length ≤ ti * chunkSize := hstart
          _ ≤ (ti + j) * chunkSize := Nat.mul_le_mul_right _ (Nat.le_add_right _ _)
      rw [hdrop]
      cases j with
      | zero =>
        show t = _
        cases t
        simp
      | succ j =>
        simp
    · rw [if_neg hstart] at h
      simp only [] at h
      rcases hband : loadBand t
          ((((sorted.drop (ti * chunkSize)).take chunkSize)).flatMap pkgDest) with ⟨e, t₁⟩
      rw [hband] at h
      cases e with
      | some f => cases h
      | none =>
        cases hrec : assignGo pkgDest sorted chunkSize (ti + 1) ts with
        | error e' => rw [hrec] at h; cases h
        | ok ts₁ =>
          rw [hrec] at h
          cases h
          obtain ⟨hlen, hall⟩ := ih pkgDest sorted chunkSize (ti + 1) ts₁ hrec
          refine ⟨by simpa using hlen, ?_⟩
          intro j hj hj'
          cases j with
          | zero =>
            show t₁ = _
            have := loadBand_ok _ t t₁ hband
            rw [this]
            simp
          | succ j =>
            show ts₁.get ⟨j, _⟩ = _
            have harith : ti + 1 + j = ti + (j + 1) := by omega
            have := hall j (by simpa using Nat.lt_of_succ_lt_succ hj)
              (by simpa using Nat.lt_of_succ_lt_succ hj')
            rw [harith] at this
            exact this

theorem bands_concat :
    ∀ (nT : Nat) (sorted : List String) (chunkSize : Nat),
      sorted.length ≤ nT * chunkSize →
      ((List.range nT).flatMap (fun i => (sorted.drop (i * chunkSize)).take chunkSize))
        = sorted := by
  intro nT
  induction nT with
  | zero =>
    intro sorted chunkSize h
    have : sorted = [] := List.eq_nil_of_length_eq_zero (by omega)
    rw [this]
    rfl
  | succ n ih =>
    intro sorted chunkSize h
    rw [List.range_succ_eq_map, List.flatMap_cons]
    have hmap : (List.map Nat.succ (List.range n)).flatMap
        (fun i => (sorted.drop (i * chunkSize)).take chunkSize)
        = (List.range n).flatMap
          (fun i => ((sorted.drop chunkSize).drop (i * chunkSize)).take chunkSize) := by
      rw [List.flatMap_map]
      apply flatMap_congr_mem
      intro i _
      show (sorted.drop (Nat.succ i * chunkSize)).take chunkSize = _
      rw [List.drop_drop, Nat.succ_mul, Nat.add_comm chunkSize (i * chunkSize)]
    rw [hmap, ih (sorted.drop chunkSize) chunkSize
      (by rw [List.length_drop]; rw [Nat.succ_mul] at h; omega)]
    simp

theorem ceil_mul_ge (n t : Nat) (ht : 0 < t) : n ≤ t * ((n + t - 1) / t) := by
  have h1 := Nat.div_add_mod (n + t - 1) t
  have h2 : (n + t - 1) % t < t := Nat.mod_lt _ ht
  omega

/-! ## Claim C2 -/

/-- C2: on success, `AssignPackagesByDistance` sorts the destinations by
(hub distance ascending, destination string ascending) and gives truck `j`
(0-indexed) exactly the packages of the destinations at sorted positions
`[j*chunkSize, min((j+1)*chunkSize, n))` with
`chunkSize = ceil(n / truckCount)` appended to its load; trucks beyond the
last non-empty band receive nothing (their band is empty), and the bands
concatenated over all trucks are exactly a permutation of the input
destination set — each destination assigned to exactly one truck, no omission
and no duplication. -/
theorem assignPackagesByDistance_bands :
    ∀ (trucks : List Truck) (pkgDest : String → List Package)
      (distances : String → Option DistanceResult) (destinations : List String)
      (trucks' : List Truck),
      trucks ≠ [] → destinations ≠ [] →
      AssignPackagesByDistance trucks pkgDest distances destinations = .ok trucks' →
      (sortDest distances destinations).Perm destinations ∧
      (sortDest distances destinations).Pairwise (destLe distances) ∧
      trucks'.length = trucks.length ∧
      (∀ j (h : j < trucks.length) (h' : j < trucks'.length),
        trucks'.get ⟨j, h'⟩ = { trucks.get ⟨j, h⟩ with
          packages := (trucks.get ⟨j, h⟩).packages ++
            ((((sortDest distances destinations).drop
              (j * ((destinations.length + trucks.length - 1) / trucks.length))).take
              ((destinations.length + trucks.length - 1) / trucks.length)).flatMap
                pkgDest) }) ∧
      ((List.range trucks.length).flatMap
        (fun i => ((sortDest distances destinations).drop
          (i * ((destinations.length + trucks.length - 1) / trucks.length))).take
          ((destinations.length + trucks.length - 1) / trucks.length))).Perm
        destinations := by
  intro trucks pkgDest distances destinations trucks' hT hD hok
  have hperm : (sortDest distances destinations).Perm destinations :=
    List.perm_insertionSort _ _
  have hsorted : (sortDest distances destinations).Pairwise (destLe distances) := by
    haveI : IsTotal String (destLe distances) := ⟨destLe_total distances⟩
    haveI : IsTrans String (destLe distances) := ⟨fun a b c => destLe_trans distances a b c⟩
    exact List.sorted_insertionSort _ _
  have hTpos : 0 < trucks.length := by
    cases trucks with
    | nil => exact absurd rfl hT
    | cons a b => simp
  rw [AssignPackagesByDistance] at hok
  have hTE : trucks.isEmpty = false := by
    cases trucks with
    | nil => exact absurd rfl hT
    | cons a b => rfl
  rw [hTE] at hok
  simp only [Bool.false_eq_true, if_false] at hok
  obtain ⟨hlen, hall⟩ := assignGo_ok trucks pkgDest (sortDest distances destinations)
    ((destinations.length + trucks.length - 1) / trucks.length) 0 trucks' hok
  refine ⟨hperm, hsorted, hlen, ?_, ?_⟩
  · intro j h h'
    have := hall j h h'
    rw [Nat.zero_add] at this
    exact this
  · rw [bands_concat trucks.length (sortDest distances destinations)
      ((destinations.length + trucks.length - 1) / trucks.length)
      (by
        rw [hperm.length_eq]
        exact ceil_mul_ge destinations.length trucks.length hTpos)]
    exact hperm

/-- Witness for C2: two trucks, three destinations B, A, C with hub distances
2000/1000/1500 m; sorted order is A, C, B with chunk size 2; truck 1 receives
A and C's packages, truck 2 receives B's. -/
theorem assignPackagesByDistance_bands_witness :
    (sortDest
        (fun d => if d = "A" then some ⟨1000, 300⟩ else if d = "B" then some ⟨2000, 600⟩
          else if d = "C" then some ⟨1500, 450⟩ else none) ["B", "A", "C"]).Perm
      ["B", "A", "C"] ∧
    (sortDest
        (fun d => if d = "A" then some ⟨1000, 300⟩ else if d = "B" then some ⟨2000, 600⟩
          else if d = "C" then some ⟨1500, 450⟩ else none) ["B", "A", "C"]).Pairwise
      (destLe (fun d => if d = "A" then some ⟨1000, 300⟩ else if d = "B" then some ⟨2000, 600⟩
          else if d = "C" then some ⟨1500, 450⟩ else none)) ∧
    ([(⟨1, 10, "H", [⟨1, "A"⟩, ⟨3, "C"⟩]⟩ : Truck), ⟨2, 10, "H", [⟨2, "B"⟩]⟩].length
      = [(⟨1, 10, "H", []⟩ : Truck), ⟨2, 10, "H", []⟩].length) ∧
    (∀ j (h : j < [(⟨1, 10, "H", []⟩ : Truck), ⟨2, 10, "H", []⟩].length)
      (h' : j < [(⟨1, 10, "H", [⟨1, "A"⟩, ⟨3, "C"⟩]⟩ : Truck), ⟨2, 10, "H", [⟨2, "B"⟩]⟩].length),
      [(⟨1, 10, "H", [⟨1, "A"⟩, ⟨3, "C"⟩]⟩ : Truck), ⟨2, 10, "H", [⟨2, "B"⟩]⟩].get ⟨j, h'⟩
        = { [(⟨1, 10, "H", []⟩ : Truck), ⟨2, 10, "H", []⟩].get ⟨j, h⟩ with
            packages := ([(⟨1, 10, "H", []⟩ : Truck), ⟨2, 10, "H", []⟩].get ⟨j, h⟩).packages ++
              ((((sortDest
                (fun d => if d = "A" then some ⟨1000, 300⟩ else if d = "B" then some ⟨2000, 600⟩
                  else if d = "C" then some ⟨1500, 450⟩ else none) ["B", "A", "C"]).drop
                (j * ((["B", "A", "C"].length
                  + [(⟨1, 10, "H", []⟩ : Truck), ⟨2, 10, "H", []⟩].length - 1)
                  / [(⟨1, 10, "H", []⟩ : Truck), ⟨2, 10, "H", []⟩].length))).take
                ((["B", "A", "C"].length
                  + [(⟨1, 10, "H", []⟩ : Truck), ⟨2, 10, "H", []⟩].length - 1)
                  / [(⟨1, 10, "H", []⟩ : Truck), ⟨2, 10, "H", []⟩].length)).flatMap
                (fun d => if d = "A" then [(⟨1, "A"⟩ : Package)]
                  else if d = "B" then [(⟨2, "B"⟩ : Package)]
                  else if d = "C" then [(⟨3, "C"⟩ : Package)] else [])) }) ∧
    ((List.range [(⟨1, 10, "H", []⟩ : Truck), ⟨2, 10, "H", []⟩].length).flatMap
      (fun i => ((sortDest
        (fun d => if d = "A" then some ⟨1000, 300⟩ else if d = "B" then some ⟨2000, 600⟩
          else if d = "C" then some ⟨1500, 450⟩ else none) ["B", "A", "C"]).drop
        (i * ((["B", "A", "C"].length
          + [(⟨1, 10, "H", []⟩ : Truck), ⟨2, 10, "H", []⟩].length - 1)
          / [(⟨1, 10, "H", []⟩ : Truck), ⟨2, 10, "H", []⟩].length))).take
        ((["B", "A", "C"].length
          + [(⟨1, 10, "H", []⟩ : Truck), ⟨2, 10, "H", []⟩].length - 1)
          / [(⟨1, 10, "H", []⟩ : Truck), ⟨2, 10, "H", []⟩].length))).Perm
      ["B", "A", "C"] :=
  assignPackagesByDistance_bands
    [(⟨1, 10, "H", []⟩ : Truck), ⟨2, 10, "H", []⟩]
    (fun d => if d = "A" then [(⟨1, "A"⟩ : Package)] else if d = "B" then [(⟨2, "B"⟩ : Package)]
      else if d = "C" then [(⟨3, "C"⟩ : Package)] else [])
    (fun d => if d = "A" then some ⟨1000, 300⟩ else if d = "B" then some ⟨2000, 600⟩
      else if d = "C" then some ⟨1500, 450⟩ else none)
    ["B", "A", "C"]
    [(⟨1, 10, "H", [⟨1, "A"⟩, ⟨3, "C"⟩]⟩ : Truck), ⟨2, 10, "H", [⟨2, "B"⟩]⟩]
    (by decide) (by decide) (by decide)

/-! ## Claims C10 and C6 -/

/-- C10: when the package repository returns an empty list there are no
destinations, and `PlanDeliveries` succeeds with an empty plan list — for
every request, every provider behavior and every worker arrival order (in
this pure embedding the result is a constant in the provider and arrival
oracles, i.e. no distance resolution, truck construction or assignment takes
place). -/
theorem planDeliveries_empty_packages :
    ∀ (req : PlanDeliveriesRequest)
      (getDist : String → List String → Except String (String → Option DistanceResult))
      (arrival : List String),
      PlanDeliveries req (.ok []) getDist arrival = .ok [] := by
  intro req getDist arrival
  rfl

theorem mergeOrigin_ok_of_covered {origin : String} {res : String → Option DistanceResult} :
    ∀ (ts : List String) (m : String → Option DistanceResult),
      (∀ t ∈ ts, t ≠ origin → (res t).isSome = true) →
      ∃ m', mergeOrigin origin res ts m = .ok m' := by
  intro ts
  induction ts with
  | nil => intro m _; exact ⟨m, rfl⟩
  | cons t ts ih =>
    intro m hcov
    rw [mergeOrigin]
    by_cases hto : t = origin
    · rw [if_pos hto]
      exact ih m (fun t' ht' => hcov t' (List.mem_cons_of_mem _ ht'))
    · rw [if_neg hto]
      have hsome := hcov t (List.mem_cons_self _ _) hto
      rcases Option.isSome_iff_exists.mp hsome with ⟨r, hr⟩
      rw [hr]
      exact ih _ (fun t' ht' => hcov t' (List.mem_cons_of_mem _ ht'))

theorem drainResults_ok_of_covered
    {getDist : String → List String → Except String (String → Option DistanceResult)}
    {hubAndDests : List String} :
    ∀ (arrival : List String) (pe : Option (String × String))
      (m : String → Option DistanceResult),
      (∀ o ∈ arrival, ∀ r, getDist o (hubTargets hubAndDests o) = .ok r →
        ∀ t ∈ hubAndDests, t ≠ o → (r t).isSome = true) →
      ∃ m', drainResults getDist hubAndDests arrival pe m
        = .ok (pe.orElse (fun _ => firstWorkerError getDist hubAndDests arrival), m') := by
  intro arrival
  induction arrival with
  | nil =>
    intro pe m _
    refine ⟨m, ?_⟩
    rw [drainResults]
    cases pe <;> rfl
  | cons o rest ih =>
    intro pe m hcov
    rw [drainResults]
    cases hg : getDist o (hubTargets hubAndDests o) with
    | error e =>
      obtain ⟨m', hm'⟩ := ih (pe.orElse fun _ => some (o, e)) m
        (fun o' ho' => hcov o' (List.mem_cons_of_mem _ ho'))
      refine ⟨m', ?_⟩
      show drainResults getDist hubAndDests rest (pe.orElse fun _ => some (o, e)) m = _
      rw [hm']
      have hfe : firstWorkerError getDist hubAndDests (o :: rest) = some (o, e) := by
        rw [firstWorkerError, List.findSome?]
        rw [hg]
      rw [hfe]
      cases pe <;> rfl
    | ok res =>
      obtain ⟨m₁, hm₁⟩ := mergeOrigin_ok_of_covered hubAndDests m
        (hcov o (List.mem_cons_self _ _) res hg)
      obtain ⟨m', hm'⟩ := ih pe m₁ (fun o' ho' => hcov o' (List.mem_cons_of_mem _ ho'))
      refine ⟨m', ?_⟩
      show (match mergeOrigin o res hubAndDests m with
        | Except.error err => Except.error err
        | Except.ok m₂ => drainResults getDist hubAndDests rest pe m₂) = _
      rw [hm₁]
      show drainResults getDist hubAndDests rest pe m₁ = _
      rw [hm']
      have hfe : firstWorkerError getDist hubAndDests (o :: rest)
          = firstWorkerError getDist hubAndDests rest := by
        rw [firstWorkerError, List.findSome?]
        rw [hg]
        rfl
      rw [hfe]

/-- C6: once a planning request reaches the pairwise-matrix build (packages
listed with non-empty destinations, hub distances resolved and complete,
assignment succeeded), a failure of the distance resolution for any one
origin fails the whole request: provided every successful worker covers its
targets, `PlanDeliveries` returns exactly the single representative
`pairwiseGet` error wrapping the first worker error in channel-arrival order —
an `Except.error`, so neither a partial pairwise map nor any partial plan
list is returned. -/
theorem planDeliveries_pairwise_failure :
    ∀ (req : PlanDeliveriesRequest) (pkgs : List Package)
      (getDist : String → List String → Except String (String → Option DistanceResult))
      (arrival : List String) (results : String → Option DistanceResult)
      (trucks' : List Truck) (o₀ e₀ : String),
      pkgs.find? (fun p => goTrimSpace p.destination = "") = none →
      (groupedDestinations pkgs).isEmpty = false →
      getDist req.hub (groupedDestinations pkgs) = .ok results →
      (groupedDestinations pkgs).find? (fun d => (results d).isNone) = none →
      AssignPackagesByDistance (planTrucks req) (pkgDestOf pkgs)
        (hubDistancesMap pkgs results) (groupedDestinations pkgs) = .ok trucks' →
      (∀ o ∈ arrival, ∀ r,
        getDist o (hubTargets (planHubAndDests req pkgs results) o) = .ok r →
        ∀ t ∈ planHubAndDests req pkgs results, t ≠ o → (r t).isSome = true) →
      firstWorkerError getDist (planHubAndDests req pkgs results) arrival = some (o₀, e₀) →
      PlanDeliveries req (.ok pkgs) getDist arrival = .error (.pairwiseGet o₀ e₀) := by
  intro req pkgs getDist arrival results trucks' o₀ e₀ hfind hne hhub hmiss hassign hcov hfirst
  obtain ⟨m', hm'⟩ := drainResults_ok_of_covered arrival none
    ((sortDest (hubDistancesMap pkgs results) (groupedDestinations pkgs)).foldl
      (fun m d => insertKV m (distKey req.hub d) (((hubDistancesMap pkgs results) d).getD ⟨0, 0⟩))
      (fun _ => none)) hcov
  rw [PlanDeliveries]
  simp only [hfind, hne, Bool.false_eq_true, if_false, hhub, hmiss, hassign]
  show (match drainResults getDist (planHubAndDests req pkgs results) arrival none
      ((sortDest (hubDistancesMap pkgs results) (groupedDestinations pkgs)).foldl
        (fun m d => insertKV m (distKey req.hub d)
          (((hubDistancesMap pkgs results) d).getD ⟨0, 0⟩))
        (fun _ => none)) with
    | Except.error e => Except.error e
    | Except.ok (some (o, e), _) => Except.error (.pairwiseGet o e)
    | Except.ok (none, pairwiseDist) =>
        plansFor req.departAt pairwiseDist req.returnToStart trucks')
    = Except.error (.pairwiseGet o₀ e₀)
  rw [hm']
  simp only [Option.orElse, hfirst]

/-- Witness for C6: one truck, one destination A; the hub resolution succeeds
but the pairwise worker for origin A fails, so the whole request fails with
that worker's error. -/
theorem planDeliveries_pairwise_failure_witness :
    PlanDeliveries ⟨"H", 1, 10, 0, false⟩ (.ok [⟨1, "A"⟩])
      (fun o _ => if o = "H" then .ok (fun d => if d = "A" then some ⟨1000, 300⟩ else none)
        else .error "boom")
      ["A"] = .error (.pairwiseGet "A" "boom") :=
  planDeliveries_pairwise_failure ⟨"H", 1, 10, 0, false⟩ [⟨1, "A"⟩]
    (fun o _ => if o = "H" then .ok (fun d => if d = "A" then some ⟨1000, 300⟩ else none)
      else .error "boom")
    ["A"] (fun d => if d = "A" then some ⟨1000, 300⟩ else none)
    [⟨1, 10, "H", [⟨1, "A"⟩]⟩] "A" "boom"
    (by decide) (by decide) (by rfl) (by decide) (by decide)
    (by
      intro o ho r hr
      simp only [List.mem_singleton] at ho
      subst ho
      simp at hr)
    (by decide)

/-! ## Claims C4 and C7 -/

theorem buildRow_covers :
    ∀ (ds : List String) (ms ss : List (Option Int)) (row : List (String × DistanceResult)),
      buildRow ds ms ss = .ok row → ∀ d ∈ ds, (row.lookup d).isSome = true := by
  intro ds
  induction ds with
  | nil => intro ms ss row h d hd; cases hd
  | cons d₀ ds ih =>
    intro ms ss row h d hd
    cases ms with
    | nil => cases h
    | cons mp ms =>
      cases ss with
      | nil => cases h
      | cons sp ss =>
        cases mp with
        | none => simp [buildRow] at h
        | some meters =>
          cases sp with
          | none => simp [buildRow] at h
          | some seconds =>
            rw [buildRow] at h
            cases hrec : buildRow ds ms ss with
            | error e => rw [hrec] at h; cases h
            | ok rest =>
              rw [hrec] at h
              cases h
              by_cases hdd : d = d₀
              · subst hdd
                simp [List.lookup]
              · rcases List.mem_cons.mp hd with h' | h'
                · exact absurd h' hdd
                · simp only [List.lookup]
                  rw [beq_eq_false_iff_ne.mpr hdd]
                  exact ih ms ss rest hrec d h'

theorem fetchMatrixRow_covers :
    ∀ (mh : Coordinates → List Coordinates → Except String MatrixResponse)
      (oc : Coordinates) (dests : List String) (coords : List Coordinates)
      (f : String → Option DistanceResult),
      fetchMatrixRow mh oc dests coords = .ok f → ∀ d ∈ dests, (f d).isSome = true := by
  intro mh oc dests coords f h d hd
  rw [fetchMatrixRow] at h
  split at h
  · cases h
  · split at h
    · next hne =>
      rw [List.isEmpty_iff] at hne
      subst hne
      cases hd
    · cases hmr : mh oc coords with
      | error e => rw [hmr] at h; cases h
      | ok mr =>
        rw [hmr] at h
        split at h
        · next heq => cases heq
        · next mr2 heq =>
          injection heq with heq2
          subst heq2
          split at h
          · cases h
          · simp only [] at h
            split at h
            · cases h
            · cases hbr : buildRow dests (mr.distances.headD []) (mr.durations.headD []) with
              | error e => rw [hbr] at h; cases h
              | ok row =>
                rw [hbr] at h
                cases h
                exact buildRow_covers dests _ _ row hbr d hd

/-- C4: a single `GetDistances` (`resolveMany`) call is all-or-nothing: when it
returns `.ok m`, `m` has a result for every requested destination — after
whitespace normalization, deduplication and dropping destinations equal to the
origin — and otherwise it returns an error and no map at all (`Except`
structurally excludes partial results).  In particular a validated matrix row
covers every destination it was asked for: any wrong row shape or null entry
already makes `fetchMatrixRow`, and with it the whole call, fail. -/
theorem getDistances_all_or_nothing :
    (∀ (ox : OrsOracles) (origin : String) (destinations : List String)
      (m : String → Option DistanceResult),
      GetDistances ox origin destinations = .ok m →
      ∀ d ∈ destListOf origin destinations, (m d).isSome = true) ∧
    (∀ (mh : Coordinates → List Coordinates → Except String MatrixResponse)
      (oc : Coordinates) (dests : List String) (coords : List Coordinates)
      (f : String → Option DistanceResult),
      fetchMatrixRow mh oc dests coords = .ok f → ∀ d ∈ dests, (f d).isSome = true) := by
  refine ⟨?_, fetchMatrixRow_covers⟩
  intro ox origin destinations m h d hd
  rw [GetDistances] at h
  split at h
  · cases h
  · split at h
    · next hde =>
      cases h
      rw [List.isEmpty_iff] at hde
      subst hde
      simp [destListOf, dedupFirstAux] at hd
    · simp only [] at h
      split at h
      · cases h
      · split at h
        · next hdle =>
          cases h
          rw [List.isEmpty_iff] at hdle
          rw [hdle] at hd
          cases hd
        · split at h
          · cases h
          · next destinationHits heq =>
            split at h
            · next hmiss =>
              cases h
              rw [List.isEmpty_iff, List.filter_eq_nil_iff] at hmiss
              have := hmiss d hd
              simp only [Option.isNone_iff_eq_none] at this
              exact Option.isSome_iff_ne_none.mpr (by simpa using this)
            · split at h
              · cases h
              · next geocodeHits heq2 =>
                split at h
                · cases h
                · next fresh heq3 =>
                  split at h
                  · cases h
                  · next originCoord heq4 =>
                    split at h
                    · cases h
                    · next destinationCoords heq5 =>
                      split at h
                      · cases h
                      · next fetched heq6 =>
                        split at h
                        · next hmissing =>
                          cases h
                          rw [List.isEmpty_iff, List.filter_eq_nil_iff] at hmissing
                          cases hfd : fetched d with
                          | some r => simp [hfd]
                          | none =>
                            simp only [hfd]
                            by_cases hdm : (destinationHits d).isNone = true
                            · exfalso
                              have hdmem : d ∈ (destListOf origin destinations).filter
                                  (fun d => (destinationHits d).isNone) :=
                                List.mem_filter.mpr ⟨hd, hdm⟩
                              have := hmissing d hdmem
                              simp [hfd] at this
                            · simp only [Option.isNone_iff_eq_none] at hdm
                              exact Option.isSome_iff_ne_none.mpr hdm
                        · cases h

/-- Witness for C4: a cached call and a one-destination matrix row, with the
all-or-nothing coverage conclusions instantiated at a concrete destination. -/
theorem getDistances_all_or_nothing_witness :
    (GetDistances
        (⟨some (fun _ _ => .ok (fun d =>
            if d = "A" ∨ d = "B" then some (⟨100, 10⟩ : DistanceResult) else none)),
          none, fun _ => .error "g", fun _ _ => .error "m"⟩ : OrsOracles)
        "H" ["A", "B"] =
      .ok (fun d =>
        if d = "A" ∨ d = "B" then some (⟨100, 10⟩ : DistanceResult) else none)) ∧
    (((fun d =>
        if d = "A" ∨ d = "B" then some (⟨100, 10⟩ : DistanceResult) else none)
        "A").isSome = true) ∧
    (fetchMatrixRow
        (fun _ _ => .ok (⟨[[some 700]], [[some 210]]⟩ : MatrixResponse))
        (⟨1, 2⟩ : Coordinates) ["A"] [(⟨3, 4⟩ : Coordinates)] =
      .ok (fun d => List.lookup d [("A", (⟨700, 210⟩ : DistanceResult))])) ∧
    (((fun d => List.lookup d [("A", (⟨700, 210⟩ : DistanceResult))]) "A").isSome = true) := by
  have h1 : GetDistances
      (⟨some (fun _ _ => .ok (fun d =>
          if d = "A" ∨ d = "B" then some (⟨100, 10⟩ : DistanceResult) else none)),
        none, fun _ => .error "g", fun _ _ => .error "m"⟩ : OrsOracles)
      "H" ["A", "B"] =
      .ok (fun d =>
        if d = "A" ∨ d = "B" then some (⟨100, 10⟩ : DistanceResult) else none) := rfl
  have h2 : fetchMatrixRow
      (fun _ _ => .ok (⟨[[some 700]], [[some 210]]⟩ : MatrixResponse))
      (⟨1, 2⟩ : Coordinates) ["A"] [(⟨3, 4⟩ : Coordinates)] =
      .ok (fun d => List.lookup d [("A", (⟨700, 210⟩ : DistanceResult))]) := rfl
  exact ⟨h1, getDistances_all_or_nothing.1 _ "H" ["A", "B"] _ h1 "A" (by decide),
    h2, getDistances_all_or_nothing.2 _ ⟨1, 2⟩ ["A"] [⟨3, 4⟩] _ h2 "A" (by decide)⟩

/-- C7: when the distance cache returns a hit for every requested destination
(after normalization, deduplication and dropping destinations equal to the
origin), `GetDistances` returns exactly the cached map, and the result does not
depend on the geocode cache, the geocoder, or the matrix endpoint at all (they
are universally quantified), i.e. no geocoding and no matrix call is made. -/
theorem getDistances_cache_hit_short_circuit
    (dc : String → List String → Except String (String → Option DistanceResult))
    (gc : Option (List String → Except String (String → Option Coordinates)))
    (gm : List String → Except String (String → Option Coordinates))
    (mh : Coordinates → List Coordinates → Except String MatrixResponse)
    (origin : String) (destinations : List String)
    (hits : String → Option DistanceResult)
    (ho : origin ≠ "")
    (hno : normalizeAddr origin ≠ "")
    (hde : destinations.isEmpty = false)
    (hdle : (destListOf origin destinations).isEmpty = false)
    (hcache : dc (normalizeAddr origin) (destListOf origin destinations) = .ok hits)
    (hall : ∀ d ∈ destListOf origin destinations, (hits d).isSome = true) :
    GetDistances ⟨some dc, gc, gm, mh⟩ origin destinations = .ok hits := by
  have hfil : (destListOf origin destinations).filter (fun d => (hits d).isNone) = [] := by
    rw [List.filter_eq_nil_iff]
    intro d hd
    have := hall d hd
    simp only [Option.isNone_iff_eq_none]
    exact Option.isSome_iff_ne_none.mp this
  rw [GetDistances, if_neg ho]
  simp only [hde, Bool.false_eq_true, if_false]
  rw [if_neg hno]
  simp only [hdle, Bool.false_eq_true, if_false, hcache, Except.mapError, hfil]
  simp

/-- Witness for C7: a two-destination request fully served from the distance
cache, with a geocoder and matrix endpoint that would fail if consulted. -/
theorem getDistances_cache_hit_short_circuit_witness :
    GetDistances
      (⟨some (fun _ _ => .ok (fun d =>
          if d = "X" ∨ d = "Y" then some (⟨500, 60⟩ : DistanceResult) else none)),
        none, fun _ => .error "geocode called", fun _ _ => .error "matrix called"⟩ : OrsOracles)
      "HubSt" ["X", "Y"] =
      .ok (fun d => if d = "X" ∨ d = "Y" then some (⟨500, 60⟩ : DistanceResult) else none) :=
  getDistances_cache_hit_short_circuit
    (fun _ _ => .ok (fun d =>
      if d = "X" ∨ d = "Y" then some (⟨500, 60⟩ : DistanceResult) else none))
    none (fun _ => .error "geocode called") (fun _ _ => .error "matrix called")
    "HubSt" ["X", "Y"]
    (fun d => if d = "X" ∨ d = "Y" then some (⟨500, 60⟩ : DistanceResult) else none)
    (by decide) (by decide) (by decide) (by decide) rfl (by decide)

theorem doWithRetryAux_inv (ctxTop ctxWait mkOk : Nat → Bool) (out : Nat → AttemptOutcome) :
    ∀ (fuel k : Nat) (lastErr : Option RetryErr),
      (∀ i, i < k → ∃ e, out i = .err e ∧ retryClassify e = true) →
      (doWithRetryAux ctxTop ctxWait mkOk out fuel k ((200 : Int) * 2 ^ k) lastErr k
          ((List.range k).map (fun i => (200 : Int) * 2 ^ i))).2.1 ≤ k + fuel ∧
      ∃ n, (doWithRetryAux ctxTop ctxWait mkOk out fuel k ((200 : Int) * 2 ^ k) lastErr k
          ((List.range k).map (fun i => (200 : Int) * 2 ^ i))).2.2 =
          (List.range n).map (fun i => (200 : Int) * 2 ^ i) ∧
        ∀ i, i < n → ∃ e, out i = .err e ∧ retryClassify e = true := by
  intro fuel
  induction fuel with
  | zero =>
    intro k lastErr H
    rw [doWithRetryAux]
    refine ⟨?_, k, rfl, H⟩
    show k ≤ k + 0
    omega
  | succ fuel ih =>
    intro k lastErr H
    rw [doWithRetryAux]
    by_cases hct : ctxTop k = true
    · rw [if_pos hct]
      refine ⟨?_, k, rfl, H⟩
      show k ≤ k + (fuel + 1)
      omega
    · rw [if_neg hct]
      by_cases hmk : mkOk k = false
      · rw [if_pos hmk]
        refine ⟨?_, k, rfl, H⟩
        show k ≤ k + (fuel + 1)
        omega
      · rw [if_neg hmk]
        cases hout : out k with
        | ok respId =>
          refine ⟨?_, k, rfl, H⟩
          show k + 1 ≤ k + (fuel + 1)
          omega
        | err e =>
          simp only []
          by_cases hcls : retryClassify e = false ∨ fuel = 0
          · rw [if_pos hcls]
            refine ⟨?_, k, rfl, H⟩
            show k + 1 ≤ k + (fuel + 1)
            omega
          · rw [if_neg hcls]
            by_cases hcw : ctxWait k = true
            · rw [if_pos hcw]
              refine ⟨?_, k, rfl, H⟩
              show k + 1 ≤ k + (fuel + 1)
              omega
            · rw [if_neg hcw]
              push_neg at hcls
              have htr : retryClassify e = true := by
                rcases hcls with ⟨h1, _⟩
                cases hre : retryClassify e
                · exact absurd hre h1
                · rfl
              have H' : ∀ i, i < k + 1 → ∃ e, out i = .err e ∧ retryClassify e = true := by
                intro i hi
                rcases Nat.lt_succ_iff_lt_or_eq.mp hi with hik | hik
                · exact H i hik
                · subst hik
                  exact ⟨e, hout, htr⟩
              have hb : (200 : Int) * 2 ^ k * 2 = 200 * 2 ^ (k + 1) := by
                rw [pow_succ]
                ring
              have hw : ((List.range k).map (fun i => (200 : Int) * 2 ^ i)) ++
                  [(200 : Int) * 2 ^ k] =
                  (List.range (k + 1)).map (fun i => (200 : Int) * 2 ^ i) := by
                rw [List.range_succ, List.map_append]
                rfl
              rw [hb, hw]
              have key := ih (k + 1) (some e) H'
              refine ⟨?_, key.2⟩
              have h1 := key.1
              omega

/-- C5: every call through `doWithRetry` makes at most 4 attempts; its backoff
waits are exactly 200 ms, 400 ms, 800 ms, ... (200·2^i), and a wait is
performed only after an attempt that failed with HTTP 429/500/502/503/504 or a
network-level error; any other failure (e.g. a different 4xx status) returns
the last failure immediately without a retry; the backoff wait itself aborts
with the context error on cancellation; three consecutive 503 responses
followed by a 200 succeed on the 4th attempt after waits 200/400/800, while a
4th consecutive 503 exhausts the budget and returns that last failure. -/
theorem doWithRetry_spec :
    (∀ (ctxTop ctxWait mkOk : Nat → Bool) (out : Nat → AttemptOutcome),
      (doWithRetry ctxTop ctxWait mkOk out).2.1 ≤ 4 ∧
      (doWithRetry ctxTop ctxWait mkOk out).2.2 =
        (List.range (doWithRetry ctxTop ctxWait mkOk out).2.2.length).map
          (fun i => (200 : Int) * 2 ^ i) ∧
      (∀ i, i < (doWithRetry ctxTop ctxWait mkOk out).2.2.length →
        ∃ e, out i = .err e ∧ retryClassify e = true)) ∧
    (∀ (ctxTop ctxWait mkOk : Nat → Bool) (out : Nat → AttemptOutcome) (e : RetryErr),
      ctxTop 0 = false → mkOk 0 = true → out 0 = .err e → retryClassify e = false →
      doWithRetry ctxTop ctxWait mkOk out = (.error (.transport e), 1, [])) ∧
    (∀ (out : Nat → AttemptOutcome) (e : RetryErr),
      out 0 = .err e → retryClassify e = true →
      doWithRetry (fun _ => false) (fun _ => true) (fun _ => true) out =
        (.error .ctxErr, 1, [])) ∧
    (∀ respId : Nat,
      doWithRetry (fun _ => false) (fun _ => false) (fun _ => true)
        (fun k => if k < 3 then .err (.http 503 "") else .ok respId) =
      (.ok respId, 4, [200, 400, 800])) ∧
    (doWithRetry (fun _ => false) (fun _ => false) (fun _ => true)
        (fun _ => .err (.http 503 "")) =
      (.error (.transport (.http 503 "")), 4, [200, 400, 800])) := by
  refine ⟨?_, ?_, ?_, ?_, ?_⟩
  · intro ctxTop ctxWait mkOk out
    have key := doWithRetryAux_inv ctxTop ctxWait mkOk out 4 0 none
      (fun i hi => absurd hi (Nat.not_lt_zero i))
    have h200 : ((200 : Int) * 2 ^ (0 : Nat)) = 200 := by norm_num
    rw [h200, List.range_zero, List.map_nil] at key
    rw [doWithRetry]
    obtain ⟨h1, n, hw, hprop⟩ := key
    refine ⟨by omega, ?_, ?_⟩
    · rw [hw, List.length_map, List.length_range]
    · intro i hi
      rw [hw, List.length_map, List.length_range] at hi
      exact hprop i hi
  · intro ctxTop ctxWait mkOk out e h0 hmk hout hcls
    rw [doWithRetry]
    show doWithRetryAux ctxTop ctxWait mkOk out (3 + 1) 0 200 none 0 [] = _
    rw [doWithRetryAux]
    simp [h0, hmk, hout, hcls]
  · intro out e hout htr
    rw [doWithRetry]
    show doWithRetryAux (fun _ => false) (fun _ => true) (fun _ => true) out (3 + 1)
      0 200 none 0 [] = _
    rw [doWithRetryAux]
    simp [hout, htr]
  · intro respId
    rfl
  · rfl

/-- Witness for C5: the attempt bound at a concrete all-503 run, an immediate
404 failure, a cancelled backoff wait, and the 503/503/503/200 success. -/
theorem doWithRetry_spec_witness :
    ((doWithRetry (fun _ => false) (fun _ => false) (fun _ => true)
        (fun _ => .err (.http 503 ""))).2.1 ≤ 4) ∧
    (doWithRetry (fun _ => false) (fun _ => false) (fun _ => true)
        (fun _ => .err (.http 404 "nf")) =
      (.error (.transport (.http 404 "nf")), 1, [])) ∧
    (doWithRetry (fun _ => false) (fun _ => true) (fun _ => true)
        (fun _ => .err .net) = (.error .ctxErr, 1, [])) ∧
    (doWithRetry (fun _ => false) (fun _ => false) (fun _ => true)
        (fun k => if k < 3 then .err (.http 503 "") else .ok 7) =
      (.ok 7, 4, [200, 400, 800])) :=
  ⟨(doWithRetry_spec.1 (fun _ => false) (fun _ => false) (fun _ => true)
      (fun _ => .err (.http 503 ""))).1,
   doWithRetry_spec.2.1 (fun _ => false) (fun _ => false) (fun _ => true)
      (fun _ => .err (.http 404 "nf")) (.http 404 "nf") rfl rfl rfl (by decide),
   doWithRetry_spec.2.2.1 (fun _ => .err .net) .net rfl (by decide),
   doWithRetry_spec.2.2.2.1 7⟩
